import Mathlib

/-!
Verification of the arbstr reverse proxy against its specification.

The definitions below are a shallow embedding of the Rust sources:

* `src/proxy/circuit_breaker.rs` — the per-provider circuit breaker state
  machine (`CircuitBreakerInner`) and its registry;
* `src/router/selector.rs` — candidate selection and the cost model;
* `src/proxy/retry.rs` — retry with fallback for non-streaming requests;
* `src/proxy/stream.rs` — the SSE observer for streaming usage extraction;
* `src/proxy/handlers.rs` — the request handler (the revision present in the
  sources predates circuit-breaker integration in the handler, so the
  dispatch loop and the health endpoint aggregation are modelled from the
  specification, as marked on the definitions concerned).

Machine integers (`u32`, `u64`) are modelled as `Nat` (none of the verified
code paths can overflow them: counters only grow by 1 per recorded event and
routing costs are sums of configured rates).  `tokio::time::Instant` is
modelled as a `Nat` timestamp in seconds passed explicitly to each operation;
`Instant::duration_since` saturates at zero exactly like `Nat` subtraction.
-/

namespace Arbstr

/-- The three states of the circuit breaker, from `CircuitState` in
`circuit_breaker.rs`. -/
inductive CircuitState where
  | Closed
  | Open
  | HalfOpen
deriving DecidableEq, Repr

/-- Lowercase string representation for JSON serialization, from
`CircuitState::as_str`. -/
def CircuitState.as_str : CircuitState → String
  | .Closed => "closed"
  | .Open => "open"
  | .HalfOpen => "half_open"

/-- Information about the last error that caused a state transition, from
`LastError` in `circuit_breaker.rs`. -/
structure LastError where
  error_type : String
  message : String
deriving DecidableEq, Repr

/-- Result of checking circuit breaker state for a request, from
`CheckResult` in `circuit_breaker.rs`. -/
inductive CheckResult where
  | Allowed
  | ProbePermit
  | WaitForProbe
  | Rejected
deriving DecidableEq, Repr

/-- Number of consecutive failures required to trip the circuit
(`FAILURE_THRESHOLD` in `circuit_breaker.rs`). -/
def FAILURE_THRESHOLD : Nat := 3

/-- Duration in seconds the circuit stays Open before transitioning to
Half-Open (`OPEN_DURATION` in `circuit_breaker.rs`). -/
def OPEN_DURATION : Nat := 30

/-- Core circuit breaker state, from `CircuitBreakerInner` in
`circuit_breaker.rs`.  Timestamps are `Nat` seconds. -/
structure CircuitBreakerInner where
  state : CircuitState
  failure_count : Nat
  opened_at : Option Nat
  last_failure_time : Option Nat
  last_success_time : Option Nat
  last_error : Option LastError
  trip_count : Nat
  probe_in_flight : Bool
deriving DecidableEq, Repr

/-- A new circuit breaker in the Closed state, from
`CircuitBreakerInner::new`. -/
def CircuitBreakerInner.new : CircuitBreakerInner :=
  { state := .Closed
    failure_count := 0
    opened_at := none
    last_failure_time := none
    last_success_time := none
    last_error := none
    trip_count := 0
    probe_in_flight := false }

/-- Try to acquire the single probe permit in Half-Open state, from
`CircuitBreakerInner::try_acquire_probe`.  Returns the updated state together
with the check result. -/
def CircuitBreakerInner.try_acquire_probe
    (s : CircuitBreakerInner) : CircuitBreakerInner × CheckResult :=
  if !s.probe_in_flight then
    ({ s with probe_in_flight := true }, .ProbePermit)
  else
    (s, .WaitForProbe)

/-- Check whether a request should be allowed through, from
`CircuitBreakerInner::check_state`; `now` is the current instant.  Implements
the lazy Open to Half-Open transition when the timeout expires. -/
def CircuitBreakerInner.check_state
    (s : CircuitBreakerInner) (now : Nat) : CircuitBreakerInner × CheckResult :=
  match s.state with
  | .Closed => (s, .Allowed)
  | .Open =>
    match s.opened_at with
    | some opened_at =>
      if now - opened_at ≥ OPEN_DURATION then
        ({ s with state := .HalfOpen, probe_in_flight := false }).try_acquire_probe
      else
        (s, .Rejected)
    | none => (s, .Rejected)
  | .HalfOpen => s.try_acquire_probe

/-- Record a failure, from `CircuitBreakerInner::record_failure` (the
provider-name argument, used only for tracing, is omitted).  Increments the
consecutive failure counter; when the threshold is reached, transitions to
Open, records `opened_at`, and increments the trip count. -/
def CircuitBreakerInner.record_failure
    (s : CircuitBreakerInner) (now : Nat) (error_type message : String) :
    CircuitBreakerInner :=
  let s₁ := { s with
    failure_count := s.failure_count + 1
    last_failure_time := some now
    last_error := some ⟨error_type, message⟩ }
  if s₁.failure_count ≥ FAILURE_THRESHOLD then
    { s₁ with state := .Open, opened_at := some now, trip_count := s₁.trip_count + 1 }
  else
    s₁

/-- Record a success, from `CircuitBreakerInner::record_success` (tracing
argument omitted).  Resets the failure counter. -/
def CircuitBreakerInner.record_success
    (s : CircuitBreakerInner) (now : Nat) : CircuitBreakerInner :=
  { s with failure_count := 0, last_success_time := some now }

/-- Record that the probe request succeeded, from
`CircuitBreakerInner::record_probe_success`.  Transitions to Closed. -/
def CircuitBreakerInner.record_probe_success
    (s : CircuitBreakerInner) (now : Nat) : CircuitBreakerInner :=
  { s with
    state := .Closed
    failure_count := 0
    probe_in_flight := false
    last_success_time := some now }

/-- Record that the probe request failed, from
`CircuitBreakerInner::record_probe_failure`.  Transitions to Open with a
fresh timer. -/
def CircuitBreakerInner.record_probe_failure
    (s : CircuitBreakerInner) (now : Nat) (error_type message : String) :
    CircuitBreakerInner :=
  { s with
    state := .Open
    opened_at := some now
    probe_in_flight := false
    last_error := some ⟨error_type, message⟩ }

/-- One operation on a circuit breaker, tagged with the instant at which it
runs.  These are exactly the state-changing entry points of
`CircuitBreakerInner`. -/
inductive CBOp where
  | check (now : Nat)
  | fail (now : Nat) (error_type message : String)
  | succ (now : Nat)
  | probeSucc (now : Nat)
  | probeFail (now : Nat) (error_type message : String)
deriving DecidableEq, Repr

/-- Apply one operation to a circuit breaker state (the result of
`check_state` is discarded; only the state effect matters here). -/
def CBOp.apply (s : CircuitBreakerInner) : CBOp → CircuitBreakerInner
  | .check now => (s.check_state now).1
  | .fail now et m => s.record_failure now et m
  | .succ now => s.record_success now
  | .probeSucc now => s.record_probe_success now
  | .probeFail now et m => s.record_probe_failure now et m

/-- Run a sequence of operations from a given state. -/
def runOps (s : CircuitBreakerInner) (ops : List CBOp) : CircuitBreakerInner :=
  ops.foldl CBOp.apply s

/-- The invariant claimed by the specification for every reachable state:
`failure_count ≥ FAILURE_THRESHOLD` forces the Open state with `opened_at`
set, and outside Half-Open the probe flag is clear. -/
def CBClaimInv (s : CircuitBreakerInner) : Prop :=
  (s.failure_count ≥ FAILURE_THRESHOLD → s.state = .Open ∧ s.opened_at.isSome) ∧
  (s.state ≠ .HalfOpen → s.probe_in_flight = false)

/-- The invariant that actually holds of every reachable state:
`failure_count ≥ FAILURE_THRESHOLD` forces a non-Closed state with
`opened_at` set, the Open state always has `opened_at` set, and in the
Closed state the probe flag is clear. -/
def CBInv (s : CircuitBreakerInner) : Prop :=
  (s.failure_count ≥ FAILURE_THRESHOLD → s.state ≠ .Closed ∧ s.opened_at.isSome) ∧
  (s.state = .Open → s.opened_at.isSome) ∧
  (s.state = .Closed → s.probe_in_flight = false)

theorem CBInv_new : CBInv CircuitBreakerInner.new := by
  refine ⟨?_, ?_, ?_⟩ <;> intro h <;>
    simp_all [CircuitBreakerInner.new, CBInv, FAILURE_THRESHOLD]

theorem CBInv_step (s : CircuitBreakerInner) (op : CBOp) (h : CBInv s) :
    CBInv (CBOp.apply s op) := by
  obtain ⟨h1, h2, h3⟩ := h
  cases op with
  | check now =>
    simp only [CBOp.apply, CircuitBreakerInner.check_state]
    cases hs : s.state with
    | Closed => exact ⟨h1, h2, h3⟩
    | Open =>
      cases ho : s.opened_at with
      | none => exact ⟨h1, h2, h3⟩
      | some t =>
        by_cases ht : now - t ≥ OPEN_DURATION
        · simp only [ht, if_pos, CircuitBreakerInner.try_acquire_probe]
          refine ⟨fun hf => ⟨by simp [ho], by simp [ho]⟩, by simp [ho], by simp⟩
        · simp only [ht, if_neg, not_false_iff]
          exact ⟨h1, h2, h3⟩
    | HalfOpen =>
      simp only [CircuitBreakerInner.try_acquire_probe]
      by_cases hp : s.probe_in_flight
      · simp only [hp]
        exact ⟨h1, h2, h3⟩
      · simp only [hp]
        refine ⟨fun hf => ⟨by simp [hs], (h1 hf).2⟩, ?_, ?_⟩ <;> simp [hs]
  | fail now et m =>
    simp only [CBOp.apply, CircuitBreakerInner.record_failure]
    by_cases hth : s.failure_count + 1 ≥ FAILURE_THRESHOLD
    · simp only [hth, if_pos]
      exact ⟨fun _ => ⟨by simp, by simp⟩, by simp, by simp⟩
    · simp only [hth, if_neg, not_false_iff]
      exact ⟨fun hf => absurd hf hth, h2, h3⟩
  | succ now =>
    simp only [CBOp.apply, CircuitBreakerInner.record_success]
    refine ⟨fun hf => ?_, h2, h3⟩
    · simp [FAILURE_THRESHOLD] at hf
  | probeSucc now =>
    simp only [CBOp.apply, CircuitBreakerInner.record_probe_success]
    refine ⟨fun hf => ?_, by simp, by simp⟩
    · simp [FAILURE_THRESHOLD] at hf
  | probeFail now et m =>
    simp only [CBOp.apply, CircuitBreakerInner.record_probe_failure]
    exact ⟨fun hf => ⟨by simp, by simp⟩, by simp, by simp⟩

theorem CBInv_runOps (s : CircuitBreakerInner) (ops : List CBOp) (h : CBInv s) :
    CBInv (runOps s ops) := by
  induction ops generalizing s with
  | nil => exact h
  | cons op ops ih => exact ih _ (CBInv_step s op h)

/-- Claim C5: single-step transition behaviour of the circuit breaker.  The
third consecutive `record_failure` in Closed opens the circuit, records
`opened_at` and increments the trip count; `record_success` in Closed resets
the failure counter; `check_state` in Open before `OPEN_DURATION` seconds
since `opened_at` rejects without changing state, and after at least
`OPEN_DURATION` seconds transitions to Half-Open and grants the probe
permit; `record_probe_success` closes the circuit and zeroes the counter;
`record_probe_failure` reopens with a fresh `opened_at` and the probe flag
cleared. -/
theorem circuit_transitions (s : CircuitBreakerInner) (now : Nat) :
    (s.state = .Closed → s.failure_count = 2 → ∀ et m,
      (s.record_failure now et m).state = .Open ∧
      (s.record_failure now et m).opened_at = some now ∧
      (s.record_failure now et m).trip_count = s.trip_count + 1) ∧
    (s.state = .Closed → (s.record_success now).failure_count = 0) ∧
    (∀ t, s.state = .Open → s.opened_at = some t → now - t < OPEN_DURATION →
      (s.check_state now).2 = .Rejected ∧ (s.check_state now).1 = s) ∧
    (∀ t, s.state = .Open → s.opened_at = some t → OPEN_DURATION ≤ now - t →
      s.probe_in_flight = false →
      (s.check_state now).2 = .ProbePermit ∧
      (s.check_state now).1.state = .HalfOpen ∧
      (s.check_state now).1.probe_in_flight = true) ∧
    (s.state = .HalfOpen →
      (s.record_probe_success now).state = .Closed ∧
      (s.record_probe_success now).failure_count = 0) ∧
    (s.state = .HalfOpen → ∀ et m,
      (s.record_probe_failure now et m).state = .Open ∧
      (s.record_probe_failure now et m).opened_at = some now ∧
      (s.record_probe_failure now et m).probe_in_flight = false) := by
  refine ⟨?_, ?_, ?_, ?_, ?_, ?_⟩
  · intro _ hc et m
    simp [CircuitBreakerInner.record_failure, hc, FAILURE_THRESHOLD]
  · intro _
    simp [CircuitBreakerInner.record_success]
  · intro t hs ho hlt
    simp [CircuitBreakerInner.check_state, hs, ho, Nat.not_le.mpr hlt]
  · intro t hs ho hge _
    simp [CircuitBreakerInner.check_state, hs, ho, hge,
      CircuitBreakerInner.try_acquire_probe]
  · intro _
    simp [CircuitBreakerInner.record_probe_success]
  · intro _ et m
    simp [CircuitBreakerInner.record_probe_failure]

/-- Witness for `circuit_transitions`: every hypothesis is discharged at
concrete states reached by concrete operation sequences. -/
theorem circuit_transitions_witness :
    ((runOps CircuitBreakerInner.new
        [.fail 0 "5xx" "a", .fail 0 "5xx" "b"]).record_failure 0 "5xx" "c").state
        = .Open ∧
    ((runOps CircuitBreakerInner.new
        [.fail 0 "5xx" "a", .fail 0 "5xx" "b", .fail 0 "5xx" "c"]).check_state 29).2
        = .Rejected ∧
    ((runOps CircuitBreakerInner.new
        [.fail 0 "5xx" "a", .fail 0 "5xx" "b", .fail 0 "5xx" "c"]).check_state 31).2
        = .ProbePermit ∧
    ((runOps CircuitBreakerInner.new
        [.fail 0 "5xx" "a", .fail 0 "5xx" "b", .fail 0 "5xx" "c",
         .check 31]).record_probe_success 31).state = .Closed := by
  refine ⟨?_, ?_, ?_, ?_⟩
  · exact ((circuit_transitions _ 0).1 (by decide) (by decide) "5xx" "c").1
  · exact (((circuit_transitions _ 29).2.2.1) 0 (by decide) (by decide) (by decide)).1
  · exact (((circuit_transitions _ 31).2.2.2.1) 0 (by decide) (by decide)
      (by decide) (by decide)).1
  · exact (((circuit_transitions _ 31).2.2.2.2.1) (by decide)).1

/-- Claim C6, counterexample: the claimed invariant fails on reachable
states.  After three failures at time 0 and a permit check at time 30, the
breaker is Half-Open with `failure_count = 3` (refuting
`failure_count ≥ 3 → state = Open`); one further `record_failure` reaches
Open with the probe flag still set (refuting
`state ≠ HalfOpen → probe_in_flight = false`). -/
theorem circuit_claim_inv_counterexample :
    ¬ CBClaimInv (runOps CircuitBreakerInner.new
        [.fail 0 "5xx" "a", .fail 0 "5xx" "b", .fail 0 "5xx" "c", .check 30]) ∧
    ¬ CBClaimInv (runOps CircuitBreakerInner.new
        [.fail 0 "5xx" "a", .fail 0 "5xx" "b", .fail 0 "5xx" "c", .check 30,
         .fail 30 "5xx" "d"]) := by
  constructor
  · intro h
    have := h.1 (by decide)
    exact absurd this.1 (by decide)
  · intro h
    have := h.2 (by decide)
    exact absurd this (by decide)

/-- Claim C6 (amended): in every state reachable from the initial Closed
state by any operation sequence, `failure_count ≥ 3` implies the state is
not Closed and `opened_at` is set, the Open state always has `opened_at`
set, and in the Closed state the probe-in-flight flag is false. -/
theorem circuit_reachable_inv (ops : List CBOp) :
    CBInv (runOps CircuitBreakerInner.new ops) :=
  CBInv_runOps CircuitBreakerInner.new ops CBInv_new

/-- Claim C10: `record_success` sets the failure counter to 0 and
`last_success_time` to now, leaving state, `opened_at`, trip count,
probe-in-flight flag, `last_error` and `last_failure_time` unchanged; and
among all operations only `record_probe_success` can move a non-Closed
breaker to Closed. -/
theorem record_success_frame :
    (∀ (s : CircuitBreakerInner) (now : Nat),
      (s.record_success now).state = s.state ∧
      (s.record_success now).opened_at = s.opened_at ∧
      (s.record_success now).trip_count = s.trip_count ∧
      (s.record_success now).probe_in_flight = s.probe_in_flight ∧
      (s.record_success now).last_error = s.last_error ∧
      (s.record_success now).last_failure_time = s.last_failure_time ∧
      (s.record_success now).failure_count = 0 ∧
      (s.record_success now).last_success_time = some now) ∧
    (∀ (s : CircuitBreakerInner) (op : CBOp), s.state ≠ .Closed →
      (CBOp.apply s op).state = .Closed → ∃ now, op = .probeSucc now) := by
  constructor
  · intro s now
    simp [CircuitBreakerInner.record_success]
  · intro s op hne hc
    cases op with
    | check now =>
      exfalso
      simp only [CBOp.apply, CircuitBreakerInner.check_state] at hc
      cases hs : s.state with
      | Closed => exact hne hs
      | Open =>
        rw [hs] at hc
        cases ho : s.opened_at with
        | none => rw [ho] at hc; simp at hc; exact hne hc
        | some t =>
          rw [ho] at hc
          by_cases ht : 30 - t ≤ now - t
          all_goals {
            simp only [CircuitBreakerInner.try_acquire_probe] at hc
            split at hc <;> simp_all [OPEN_DURATION]
          }
      | HalfOpen =>
        rw [hs] at hc
        simp only [CircuitBreakerInner.try_acquire_probe] at hc
        split at hc <;> simp_all
    | fail now et m =>
      exfalso
      simp only [CBOp.apply, CircuitBreakerInner.record_failure] at hc
      split at hc <;> simp_all
    | succ now =>
      exfalso
      simp only [CBOp.apply, CircuitBreakerInner.record_success] at hc
      exact hne hc
    | probeSucc now => exact ⟨now, rfl⟩
    | probeFail now et m =>
      exfalso
      simp only [CBOp.apply, CircuitBreakerInner.record_probe_failure] at hc
      exact absurd hc (by simp)

/-- Witness for `record_success_frame`: the frame part at a concrete Open
state, and the only-probe-success part at a concrete Half-Open state. -/
theorem record_success_frame_witness :
    ((runOps CircuitBreakerInner.new
        [.fail 0 "5xx" "a", .fail 0 "5xx" "b", .fail 0 "5xx" "c"]).record_success 5).state
      = .Open ∧
    ∃ now, (CBOp.probeSucc 7 : CBOp) = .probeSucc now := by
  constructor
  · have h := (record_success_frame.1 (runOps CircuitBreakerInner.new
      [.fail 0 "5xx" "a", .fail 0 "5xx" "b", .fail 0 "5xx" "c"]) 5).1
    rw [h]
    decide
  · exact record_success_frame.2
      (runOps CircuitBreakerInner.new
        [.fail 0 "5xx" "a", .fail 0 "5xx" "b", .fail 0 "5xx" "c", .check 31])
      (.probeSucc 7) (by decide) (by decide)

/-! ## Router: candidate selection and cost model (`src/router/selector.rs`) -/

/-- Provider configuration, from `ProviderConfig` in `config.rs`.  The
`ApiKey` redaction wrapper is carried as a plain optional string. -/
structure ProviderConfig where
  name : String
  url : String
  api_key : Option String
  models : List String
  input_rate : Nat
  output_rate : Nat
  base_fee : Nat
deriving DecidableEq, Repr

/-- A routing policy, from `PolicyRule` in `config.rs`. -/
structure PolicyRule where
  name : String
  allowed_models : List String
  strategy : String
  max_sats_per_1k_output : Option Nat
  keywords : List String
deriving DecidableEq, Repr

/-- A provider selected for routing, from `SelectedProvider` in
`selector.rs`. -/
structure SelectedProvider where
  name : String
  url : String
  api_key : Option String
  input_rate : Nat
  output_rate : Nat
  base_fee : Nat
deriving DecidableEq, Repr

/-- Conversion from a provider config, from the `From` impl in
`selector.rs`. -/
def toSelected (p : ProviderConfig) : SelectedProvider :=
  { name := p.name
    url := p.url
    api_key := p.api_key
    input_rate := p.input_rate
    output_rate := p.output_rate
    base_fee := p.base_fee }

/-- The arbstr error type, from `Error` in `error.rs` (payloads of the
foreign-error variants are carried as strings). -/
inductive Error where
  | Config (msg : String)
  | NoProviders (model : String)
  | NoPolicyMatch
  | Provider (msg : String)
  | Upstream (msg : String)
  | BadRequest (msg : String)
  | Internal (msg : String)
  | Database (msg : String)
deriving DecidableEq, Repr

/-- The router, from `Router` in `selector.rs`. -/
structure Router where
  providers : List ProviderConfig
  policy_rules : List PolicyRule
  default_strategy : String
deriving Repr

/-- Substring containment, modelling `str::contains` from the Rust standard
library (an external collaborator of the repository). -/
def containsSubstr (s pat : String) : Bool :=
  (List.range (s.length + 1)).any fun i => ((s.drop i).take pat.length) == pat

/-- Find a matching policy by explicit name or keyword heuristics, from
`Router::find_policy`.  An explicit name that matches no rule falls through
to the keyword heuristics, exactly as in the source. -/
def Router.find_policy (r : Router) (policy_name : Option String)
    (prompt : Option String) : Option PolicyRule :=
  match policy_name.bind (fun nm => r.policy_rules.find? (fun p => p.name == nm)) with
  | some policy => some policy
  | none =>
    match prompt with
    | some prompt =>
      let prompt_lower := prompt.toLower
      r.policy_rules.find? fun policy =>
        policy.keywords.any fun kw => containsSubstr prompt_lower kw.toLower
    | none => none

/-- The integer routing cost `output_rate + base_fee` used as the sort key
in `Router::select_candidates`. -/
def routing_cost (p : ProviderConfig) : Nat := p.output_rate + p.base_fee

/-- The max-cost filter of `Router::apply_policy_constraints`: when the
policy carries a ceiling, retain providers whose `output_rate` is within
it. -/
def policy_cost_filter (candidates : List ProviderConfig)
    (policy : PolicyRule) : List ProviderConfig :=
  match policy.max_sats_per_1k_output with
  | some max_sats => candidates.filter fun p => p.output_rate ≤ max_sats
  | none => candidates

/-- Apply policy constraints to filter providers, from
`Router::apply_policy_constraints`. -/
def Router.apply_policy_constraints (candidates : List ProviderConfig)
    (policy : PolicyRule) (model : String) :
    Except Error (List ProviderConfig) :=
  if ¬ policy.allowed_models.isEmpty ∧ ¬ policy.allowed_models.any (· == model) then
    .error (.BadRequest ("Model " ++ model ++ " not allowed by policy " ++ policy.name))
  else if (policy_cost_filter candidates policy).isEmpty then
    .error .NoPolicyMatch
  else
    .ok (policy_cost_filter candidates policy)

/-- Providers filtered by model support (an empty advertised model set is a
wildcard), the first phase of `Router::select_candidates`. -/
def Router.model_candidates (r : Router) (model : String) : List ProviderConfig :=
  r.providers.filter fun p => p.models.isEmpty || p.models.any (· == model)

/-- The surviving candidate set of `Router::select_candidates` before
sorting: model filter, then the matched policy's constraints. -/
def Router.surviving_candidates (r : Router) (model : String)
    (policy_name prompt : Option String) :
    Except Error (List ProviderConfig) :=
  if (r.model_candidates model).isEmpty then .error (.NoProviders model)
  else
    match r.find_policy policy_name prompt with
    | some policy =>
      Router.apply_policy_constraints (r.model_candidates model) policy model
    | none => .ok (r.model_candidates model)

/-- Deduplicate by provider name keeping the first occurrence, modelling the
`seen.insert` filter in `Router::select_candidates`. -/
def dedupByName : List ProviderConfig → List String → List ProviderConfig
  | [], _ => []
  | p :: ps, seen =>
    if p.name ∈ seen then dedupByName ps seen
    else p :: dedupByName ps (p.name :: seen)

/-- Select all candidate providers for a request, from
`Router::select_candidates`: filter by model and policy, sort ascending by
routing cost (`sort_by_key` is a stable sort, modelled by `mergeSort`),
deduplicate by name keeping the first (cheapest) entry. -/
def Router.select_candidates (r : Router) (model : String)
    (policy_name prompt : Option String) :
    Except Error (List SelectedProvider) :=
  match r.surviving_candidates model policy_name prompt with
  | .error e => .error e
  | .ok cands =>
    let sorted := cands.mergeSort fun a b => decide (routing_cost a ≤ routing_cost b)
    let unique := dedupByName sorted []
    if unique.isEmpty then .error .NoPolicyMatch
    else .ok (unique.map toSelected)

/-- Select the single cheapest provider, from `Router::select`. -/
def Router.select (r : Router) (model : String)
    (policy_name prompt : Option String) : Except Error SelectedProvider :=
  match r.select_candidates model policy_name prompt with
  | .error e => .error e
  | .ok l => match l with
    | [] => .error .NoPolicyMatch
    | p :: _ => .ok p

theorem mem_dedupByName_imp {l : List ProviderConfig} {seen : List String}
    {x : ProviderConfig} (h : x ∈ dedupByName l seen) : x ∈ l := by
  induction l generalizing seen with
  | nil => simp [dedupByName] at h
  | cons p ps ih =>
    simp only [dedupByName] at h
    split at h
    · exact List.mem_cons_of_mem _ (ih h)
    · rcases List.mem_cons.mp h with h | h
      · exact h ▸ List.mem_cons_self _ _
      · exact List.mem_cons_of_mem _ (ih h)

theorem mem_dedupByName_not_seen {l : List ProviderConfig} {seen : List String}
    {x : ProviderConfig} (h : x ∈ dedupByName l seen) : x.name ∉ seen := by
  induction l generalizing seen with
  | nil => simp [dedupByName] at h
  | cons p ps ih =>
    simp only [dedupByName] at h
    split at h
    · exact ih h
    · rcases List.mem_cons.mp h with h | h
      · subst h; assumption
      · intro hmem
        exact (ih h) (List.mem_cons_of_mem _ hmem)

theorem dedupByName_pairwise_names (l : List ProviderConfig) (seen : List String) :
    (dedupByName l seen).Pairwise (fun a b => a.name ≠ b.name) := by
  induction l generalizing seen with
  | nil => simp [dedupByName]
  | cons p ps ih =>
    simp only [dedupByName]
    split
    · exact ih seen
    · refine List.Pairwise.cons ?_ (ih (p.name :: seen))
      intro b hb heq
      exact (mem_dedupByName_not_seen hb) (heq ▸ List.mem_cons_self _ _)

theorem dedupByName_names_complete {l : List ProviderConfig} {seen : List String}
    {p : ProviderConfig} (h : p ∈ l) :
    p.name ∈ seen ∨ ∃ x ∈ dedupByName l seen, x.name = p.name := by
  induction l generalizing seen with
  | nil => simp at h
  | cons q qs ih =>
    simp only [dedupByName]
    rcases List.mem_cons.mp h with h | h
    · subst h
      by_cases hq : p.name ∈ seen
      · exact Or.inl hq
      · exact Or.inr ⟨p, by simp [hq], rfl⟩
    · by_cases hq : q.name ∈ seen
      · rcases @ih seen h with hs | ⟨x, hx, hxn⟩
        · exact Or.inl hs
        · exact Or.inr ⟨x, by simp [hq, hx], hxn⟩
      · rcases @ih (q.name :: seen) h with hs | ⟨x, hx, hxn⟩
        · rcases List.mem_cons.mp hs with hs | hs
          · exact Or.inr ⟨q, by simp [hq], hs.symm⟩
          · exact Or.inl hs
        · exact Or.inr ⟨x, by simp [hq, List.mem_cons_of_mem, hx], hxn⟩

theorem dedupByName_cheapest {l : List ProviderConfig} {seen : List String}
    (hsort : l.Pairwise (fun a b => routing_cost a ≤ routing_cost b))
    {x : ProviderConfig} (hx : x ∈ dedupByName l seen)
    {y : ProviderConfig} (hy : y ∈ l) (hname : y.name = x.name)
    (hyseen : y.name ∉ seen) : routing_cost x ≤ routing_cost y := by
  induction l generalizing seen with
  | nil => simp [dedupByName] at hx
  | cons p ps ih =>
    have hpair := List.pairwise_cons.mp hsort
    simp only [dedupByName] at hx
    rcases List.mem_cons.mp hy with hy | hy
    · subst hy
      split at hx
      · exact absurd (hname ▸ (by assumption)) (hname ▸ hyseen)
      · rcases List.mem_cons.mp hx with hx | hx
        · exact hx ▸ le_refl _
        · exact absurd (hname ▸ List.mem_cons_self _ _)
            (hname ▸ mem_dedupByName_not_seen hx)
    · split at hx
      · exact ih hpair.2 hx hy hyseen
      · rcases List.mem_cons.mp hx with hx | hx
        · exact hx ▸ hpair.1 y hy
        · refine ih hpair.2 hx hy ?_
          intro hmem
          rcases List.mem_cons.mp hmem with hmem | hmem
          · exact (mem_dedupByName_not_seen hx) (hname ▸ hmem ▸ List.mem_cons_self _ _)
          · exact hyseen hmem

theorem dedupByName_sublist (l : List ProviderConfig) (seen : List String) :
    List.Sublist (dedupByName l seen) l := by
  induction l generalizing seen with
  | nil => simp [dedupByName]
  | cons p ps ih =>
    simp only [dedupByName]
    split
    · exact (ih seen).cons p
    · exact (ih (p.name :: seen)).cons₂ p

theorem dedupByName_ne_nil {l : List ProviderConfig} (h : l ≠ []) :
    dedupByName l [] ≠ [] := by
  match l, h with
  | p :: ps, _ =>
    simp [dedupByName]

theorem policy_cost_filter_sub {candidates : List ProviderConfig}
    {policy : PolicyRule} :
    ∀ p ∈ policy_cost_filter candidates policy, p ∈ candidates := by
  intro p hp
  unfold policy_cost_filter at hp
  split at hp
  · exact List.mem_of_mem_filter hp
  · exact hp

theorem apply_policy_constraints_ok {candidates : List ProviderConfig}
    {policy : PolicyRule} {model : String} {s : List ProviderConfig}
    (h : Router.apply_policy_constraints candidates policy model = .ok s) :
    s = policy_cost_filter candidates policy ∧ s ≠ [] := by
  unfold Router.apply_policy_constraints at h
  split at h
  · exact absurd h (by simp)
  · split at h
    · exact absurd h (by simp)
    · cases h
      refine ⟨rfl, ?_⟩
      simp_all [List.isEmpty_iff]

theorem apply_policy_constraints_error {candidates : List ProviderConfig}
    {policy : PolicyRule} {model : String} {e : Error}
    (h : Router.apply_policy_constraints candidates policy model = .error e) :
    (∃ m, e = .BadRequest m) ∨ e = .NoPolicyMatch := by
  unfold Router.apply_policy_constraints at h
  split at h
  · cases h
    exact Or.inl ⟨_, rfl⟩
  · split at h
    · cases h
      exact Or.inr rfl
    · exact absurd h (by simp)

theorem surviving_candidates_sub {r : Router} {model : String}
    {policy_name prompt : Option String} {s : List ProviderConfig}
    (h : r.surviving_candidates model policy_name prompt = .ok s) :
    ∀ p ∈ s, p ∈ r.model_candidates model := by
  intro p hp
  unfold Router.surviving_candidates at h
  split at h
  · exact absurd h (by simp)
  · split at h
    · obtain ⟨hs, -⟩ := apply_policy_constraints_ok h
      exact policy_cost_filter_sub p (hs ▸ hp)
    · cases h; exact hp

theorem surviving_candidates_ne_nil {r : Router} {model : String}
    {policy_name prompt : Option String} {s : List ProviderConfig}
    (h : r.surviving_candidates model policy_name prompt = .ok s) : s ≠ [] := by
  unfold Router.surviving_candidates at h
  split at h
  · exact absurd h (by simp)
  · split at h
    · exact (apply_policy_constraints_ok h).2
    · cases h
      simp_all [List.isEmpty_iff]

/-- Claim C3: for every router state, model, policy hint and prompt,
`select_candidates` either returns a non-empty list sorted non-decreasing by
the routing cost `output_rate + base_fee` with pairwise-distinct provider
names, in which every entry comes from the surviving candidate set (model
support treats an empty model list as a wildcard) and is cheapest among the
survivors of its name, and every surviving name is represented — or it fails
with one of the three routing errors (`NoProviders`, `BadRequest` for a
policy-forbidden model, `NoPolicyMatch` for the policy ceiling). -/
theorem select_candidates_spec (r : Router) (model : String)
    (policy_name prompt : Option String) :
    match r.select_candidates model policy_name prompt with
    | .ok l =>
        l ≠ [] ∧
        l.Pairwise (fun a b => a.output_rate + a.base_fee ≤ b.output_rate + b.base_fee) ∧
        l.Pairwise (fun a b => a.name ≠ b.name) ∧
        ∃ survivors : List ProviderConfig,
          r.surviving_candidates model policy_name prompt = .ok survivors ∧
          (∀ p ∈ survivors, p ∈ r.model_candidates model) ∧
          (∀ x ∈ l, ∃ p ∈ survivors, toSelected p = x ∧
            ∀ q ∈ survivors, q.name = p.name → routing_cost p ≤ routing_cost q) ∧
          (∀ p ∈ survivors, ∃ x ∈ l, x.name = p.name)
    | .error e =>
        (∃ m, e = .NoProviders m) ∨ e = .NoPolicyMatch ∨ ∃ s, e = .BadRequest s := by
  unfold Router.select_candidates
  cases hsc : r.surviving_candidates model policy_name prompt with
  | error e =>
    simp only
    unfold Router.surviving_candidates at hsc
    split at hsc
    · cases hsc
      exact Or.inl ⟨model, rfl⟩
    · split at hsc
      · rcases apply_policy_constraints_error hsc with ⟨m, hm⟩ | hm
        · exact Or.inr (Or.inr ⟨m, hm⟩)
        · exact Or.inr (Or.inl hm)
      · exact absurd hsc (by simp)
  | ok cands =>
    simp only
    have hsorted : (cands.mergeSort fun a b =>
        decide (routing_cost a ≤ routing_cost b)).Pairwise
        (fun a b => routing_cost a ≤ routing_cost b) := by
      have := @List.sorted_mergeSort ProviderConfig
        (fun a b => decide (routing_cost a ≤ routing_cost b))
        (fun a b c hab hbc => by
          simp only [decide_eq_true_eq] at *
          exact le_trans hab hbc)
        (fun a b => by
          simp only [Bool.or_eq_true, decide_eq_true_eq]
          exact le_total _ _)
        cands
      exact this.imp (by simp)
    have hne : cands ≠ [] := surviving_candidates_ne_nil hsc
    have hmsne : cands.mergeSort (fun a b =>
        decide (routing_cost a ≤ routing_cost b)) ≠ [] := by
      intro hcon
      have hperm := List.mergeSort_perm cands
        (fun a b => decide (routing_cost a ≤ routing_cost b))
      rw [hcon] at hperm
      exact hne hperm.symm.eq_nil
    have hdne := dedupByName_ne_nil hmsne
    rw [if_neg (by simpa [List.isEmpty_iff] using hdne)]
    refine ⟨?_, ?_, ?_, cands, rfl, surviving_candidates_sub hsc, ?_, ?_⟩
    · simpa using hdne
    · rw [List.pairwise_map]
      have hsub := dedupByName_sublist
        (cands.mergeSort fun a b => decide (routing_cost a ≤ routing_cost b)) []
      exact (List.Pairwise.sublist hsub hsorted).imp
        (by simp [toSelected, routing_cost])
    · rw [List.pairwise_map]
      exact (dedupByName_pairwise_names _ _).imp (by simp [toSelected])
    · intro x hx
      rcases List.mem_map.mp hx with ⟨p, hp, hpx⟩
      refine ⟨p, List.mem_mergeSort.mp (mem_dedupByName_imp hp), hpx, ?_⟩
      intro q hq hqname
      exact dedupByName_cheapest hsorted hp
        (List.mem_mergeSort.mpr hq) hqname (by simp)
    · intro p hp
      rcases @dedupByName_names_complete _ [] _
        (List.mem_mergeSort.mpr hp) with hs | ⟨x, hx, hxn⟩
      · simp at hs
      · exact ⟨toSelected x, List.mem_map_of_mem _ hx, hxn⟩

/-- Test provider with a low rate but a high per-request fee (routing cost
18). -/
def provLowRateHighFee : ProviderConfig :=
  ⟨"low-rate-high-fee", "https://a.example.com/v1", none, ["gpt-4o"], 5, 10, 8⟩

/-- Test provider with a higher rate and no fee (routing cost 15). -/
def provHighRateNoFee : ProviderConfig :=
  ⟨"high-rate-no-fee", "https://b.example.com/v1", none, ["gpt-4o"], 8, 15, 0⟩

/-- Router over the two test providers with no policies. -/
def routerTwo : Router := ⟨[provLowRateHighFee, provHighRateNoFee], [], "cheapest"⟩

/-- Witness for `select_candidates_spec`: on a concrete router the selection
evaluates to the cost-ordered list (cost 15 before cost 18) and the theorem
instantiates to yield its non-emptiness. -/
theorem select_candidates_spec_witness :
    routerTwo.select_candidates "gpt-4o" none none
      = .ok [toSelected provHighRateNoFee, toSelected provLowRateHighFee] ∧
    (match routerTwo.select_candidates "gpt-4o" none none with
     | .ok l => l ≠ []
     | .error _ => False) := by
  have hok : routerTwo.select_candidates "gpt-4o" none none
      = .ok [toSelected provHighRateNoFee, toSelected provLowRateHighFee] := by
    simp [routerTwo, provLowRateHighFee, provHighRateNoFee, Router.select_candidates,
      Router.surviving_candidates, Router.model_candidates, Router.find_policy,
      toSelected, dedupByName, List.mergeSort, List.merge, routing_cost]
  refine ⟨hok, ?_⟩
  have h := select_candidates_spec routerTwo "gpt-4o" none none
  rw [hok] at h ⊢
  exact h.1

/-- Actual cost in satoshis, from `actual_cost_sats` in `selector.rs`.  The
Rust function computes in `f64` to preserve sub-satoshi precision; the
embedding computes the same expression in exact rationals (the `f64`
computation is exact for the concrete values the claim exercises). -/
def actual_cost_sats
    (input_tokens output_tokens input_rate output_rate base_fee : Nat) : ℚ :=
  let input_cost := (input_tokens : ℚ) * (input_rate : ℚ)
  let output_cost := (output_tokens : ℚ) * (output_rate : ℚ)
  (input_cost + output_cost) / 1000 + (base_fee : ℚ)

/-- The actual-cost law exactly as the specification words it:
`(i * ir + o * outr) / 1000 + bf` as a real-valued computation. -/
def spec_actual_cost (i o ir outr bf : Nat) : ℚ :=
  ((i : ℚ) * (ir : ℚ) + (o : ℚ) * (outr : ℚ)) / 1000 + (bf : ℚ)

/-- Claim C4: for all token counts and rates the post-request cost equals
`(i * ir + o * outr) / 1000 + bf` as a real-valued computation, and precision
survives small inputs: `actual_cost_sats 10 5 5 15 0` is exactly `1/8`
(`0.125`), not `0`. -/
theorem actual_cost_law :
    (∀ i o ir outr bf,
      actual_cost_sats i o ir outr bf = spec_actual_cost i o ir outr bf) ∧
    actual_cost_sats 10 5 5 15 0 = 1 / 8 ∧ (1 / 8 : ℚ) ≠ 0 := by
  refine ⟨fun i o ir outr bf => rfl, by norm_num [actual_cost_sats], by norm_num⟩

/-! ## Retry with fallback (`src/proxy/retry.rs`) -/

/-- Fixed backoff durations in seconds, from `BACKOFF_DURATIONS` in
`retry.rs` (only the first two slots are reachable at `MAX_RETRIES = 2`). -/
def BACKOFF_DURATIONS : List Nat := [1, 2, 4]

/-- Maximum number of retries on the primary provider, from `MAX_RETRIES`
in `retry.rs` (3 total attempts). -/
def MAX_RETRIES : Nat := 2

/-- Record of a single failed attempt, from `AttemptRecord` in `retry.rs`. -/
structure AttemptRecord where
  provider_name : String
  status_code : Nat
deriving DecidableEq, Repr

/-- Lightweight candidate info, from `CandidateInfo` in `retry.rs`. -/
structure CandidateInfo where
  name : String
deriving DecidableEq, Repr

/-- An error carrying an HTTP status code, modelling any implementor of the
`HasStatusCode` trait in `retry.rs`. -/
structure RError where
  status_code : Nat
deriving DecidableEq, Repr

/-- Whether an HTTP status code should trigger a retry, from `is_retryable`
in `retry.rs`: true exactly for 500, 502, 503, 504. -/
def is_retryable (status_code : Nat) : Bool :=
  status_code == 500 || status_code == 502 || status_code == 503 || status_code == 504

/-- Outcome of the full retry-and-fallback sequence, from `RetryOutcome` in
`retry.rs`, extended with the shared attempt list (`Arc<Mutex<Vec<_>>>` in
the source) and the trace of dispatches made, each tagged with the backoff
slept before it. -/
structure RetryOutcome (T : Type) where
  result : Except RError T
  attempts : List AttemptRecord
  calls : List (Nat × String)
deriving Repr

/-- The primary-provider loop of `retry_with_fallback` (`for attempt in
0..=MAX_RETRIES`).  The dispatch function is indexed by the number of
dispatches already made, which models an arbitrary stateful closure.
Returns either an early result or, after exhaustion, the last retryable
error, together with the accumulated attempt records and call trace. -/
def runPrimary {T : Type} (f : Nat → CandidateInfo → Except RError T)
    (primary : CandidateInfo) :
    (remaining attemptIdx : Nat) → List AttemptRecord → List (Nat × String) →
    Option RError →
    Option (Except RError T) × List AttemptRecord × List (Nat × String) × Option RError
  | 0, _, attempts, calls, lastErr => (none, attempts, calls, lastErr)
  | remaining + 1, attemptIdx, attempts, calls, lastErr =>
    let sleep := if attemptIdx > 0 then BACKOFF_DURATIONS.getD (attemptIdx - 1) 0 else 0
    let calls' := calls ++ [(sleep, primary.name)]
    match f calls.length primary with
    | .ok v => (some (.ok v), attempts, calls', lastErr)
    | .error err =>
      let attempts' := attempts ++ [⟨primary.name, err.status_code⟩]
      if is_retryable err.status_code then
        runPrimary f primary remaining (attemptIdx + 1) attempts' calls' (some err)
      else
        (some (.error err), attempts', calls', some err)

/-- Retry on the primary candidate with fallback to the second, from
`retry_with_fallback` in `retry.rs`.  The source asserts a non-empty
candidate list; the empty list is modelled as `none`. -/
def retry_with_fallback {T : Type} (f : Nat → CandidateInfo → Except RError T)
    (candidates : List CandidateInfo) : Option (RetryOutcome T) :=
  match candidates with
  | [] => none
  | primary :: rest =>
    match runPrimary f primary (MAX_RETRIES + 1) 0 [] [] none with
    | (some result, attempts, calls, _) => some ⟨result, attempts, calls⟩
    | (none, attempts, calls, lastErr) =>
      match rest with
      | fallback :: _ =>
        match f calls.length fallback with
        | .ok v => some ⟨.ok v, attempts, calls ++ [(0, fallback.name)]⟩
        | .error err =>
          some ⟨.error err, attempts ++ [⟨fallback.name, err.status_code⟩],
            calls ++ [(0, fallback.name)]⟩
      | [] =>
        match lastErr with
        | some err => some ⟨.error err, attempts, calls⟩
        | none => none

theorem retry_nonretryable {T : Type} (f : Nat → CandidateInfo → Except RError T)
    (c0 : CandidateInfo) (rest : List CandidateInfo) (n : Nat) (e : RError)
    (hn : n ≤ MAX_RETRIES)
    (hprev : ∀ j, j < n → ∃ ej, f j c0 = .error ej ∧ is_retryable ej.status_code = true)
    (herr : f n c0 = .error e) (hnr : is_retryable e.status_code = false) :
    ∃ attempts, retry_with_fallback f (c0 :: rest)
      = some ⟨.error e, attempts, (List.range (n + 1)).map (fun i => (i, c0.name))⟩ ∧
      attempts.length = n + 1 := by
  simp only [MAX_RETRIES] at hn
  interval_cases n
  · exact ⟨[⟨c0.name, e.status_code⟩],
      by simp [retry_with_fallback, runPrimary, MAX_RETRIES, herr, hnr,
        List.range_succ], by simp⟩
  · obtain ⟨e0, h0, hr0⟩ := hprev 0 (by omega)
    exact ⟨[⟨c0.name, e0.status_code⟩, ⟨c0.name, e.status_code⟩],
      by simp [retry_with_fallback, runPrimary, MAX_RETRIES, h0, hr0, herr, hnr,
        BACKOFF_DURATIONS, List.range_succ], by simp⟩
  · obtain ⟨e0, h0, hr0⟩ := hprev 0 (by omega)
    obtain ⟨e1, h1, hr1⟩ := hprev 1 (by omega)
    exact ⟨[⟨c0.name, e0.status_code⟩, ⟨c0.name, e1.status_code⟩,
        ⟨c0.name, e.status_code⟩],
      by simp [retry_with_fallback, runPrimary, MAX_RETRIES, h0, hr0, h1, hr1,
        herr, hnr, BACKOFF_DURATIONS, List.range_succ], by simp⟩

theorem retry_shape {T : Type} (f : Nat → CandidateInfo → Except RError T)
    (c0 : CandidateInfo) (rest : List CandidateInfo) :
    ∃ out, retry_with_fallback f (c0 :: rest) = some out ∧
      (∃ k, 1 ≤ k ∧ k ≤ MAX_RETRIES + 1 ∧
        (out.calls = (List.range k).map (fun i => (i, c0.name)) ∨
         ∃ c1 rest2, rest = c1 :: rest2 ∧ k = MAX_RETRIES + 1 ∧
           out.calls = (List.range (MAX_RETRIES + 1)).map (fun i => (i, c0.name))
             ++ [(0, c1.name)])) ∧
      (∀ v, out.result = .ok v → out.attempts.length + 1 = out.calls.length) ∧
      (∀ e, out.result = .error e → out.attempts.length = out.calls.length) := by
  cases h0 : f 0 c0 with
  | ok v =>
    refine ⟨⟨.ok v, [], [(0, c0.name)]⟩,
      by simp [retry_with_fallback, runPrimary, MAX_RETRIES, h0],
      ⟨1, by norm_num, by norm_num [MAX_RETRIES],
        Or.inl (by simp [List.range_succ])⟩, by simp, by simp⟩
  | error e0 =>
    cases hr0 : is_retryable e0.status_code with
    | false =>
      refine ⟨⟨.error e0, [⟨c0.name, e0.status_code⟩], [(0, c0.name)]⟩,
        by simp [retry_with_fallback, runPrimary, MAX_RETRIES, h0, hr0],
        ⟨1, by norm_num, by norm_num [MAX_RETRIES],
          Or.inl (by simp [List.range_succ])⟩, by simp, by simp⟩
    | true =>
      cases h1 : f 1 c0 with
      | ok v =>
        refine ⟨⟨.ok v, [⟨c0.name, e0.status_code⟩],
            [(0, c0.name), (1, c0.name)]⟩,
          by simp [retry_with_fallback, runPrimary, MAX_RETRIES, h0, hr0, h1,
            BACKOFF_DURATIONS],
          ⟨2, by norm_num, by norm_num [MAX_RETRIES],
            Or.inl (by simp [List.range_succ])⟩, by simp, by simp⟩
      | error e1 =>
        cases hr1 : is_retryable e1.status_code with
        | false =>
          refine ⟨⟨.error e1, [⟨c0.name, e0.status_code⟩, ⟨c0.name, e1.status_code⟩],
              [(0, c0.name), (1, c0.name)]⟩,
            by simp [retry_with_fallback, runPrimary, MAX_RETRIES, h0, hr0, h1, hr1,
              BACKOFF_DURATIONS],
            ⟨2, by norm_num, by norm_num [MAX_RETRIES],
              Or.inl (by simp [List.range_succ])⟩, by simp, by simp⟩
        | true =>
          cases h2 : f 2 c0 with
          | ok v =>
            refine ⟨⟨.ok v,
                [⟨c0.name, e0.status_code⟩, ⟨c0.name, e1.status_code⟩],
                [(0, c0.name), (1, c0.name), (2, c0.name)]⟩,
              by simp [retry_with_fallback, runPrimary, MAX_RETRIES, h0, hr0, h1, hr1,
                h2, BACKOFF_DURATIONS],
              ⟨3, by norm_num, by norm_num [MAX_RETRIES],
                Or.inl (by simp [List.range_succ])⟩, by simp, by simp⟩
          | error e2 =>
            cases hr2 : is_retryable e2.status_code with
            | false =>
              refine ⟨⟨.error e2,
                  [⟨c0.name, e0.status_code⟩, ⟨c0.name, e1.status_code⟩,
                    ⟨c0.name, e2.status_code⟩],
                  [(0, c0.name), (1, c0.name), (2, c0.name)]⟩,
                by simp [retry_with_fallback, runPrimary, MAX_RETRIES, h0, hr0, h1,
                  hr1, h2, hr2, BACKOFF_DURATIONS],
                ⟨3, by norm_num, by norm_num [MAX_RETRIES],
                  Or.inl (by simp [List.range_succ])⟩, by simp, by simp⟩
            | true =>
              cases rest with
              | nil =>
                refine ⟨⟨.error e2,
                    [⟨c0.name, e0.status_code⟩, ⟨c0.name, e1.status_code⟩,
                      ⟨c0.name, e2.status_code⟩],
                    [(0, c0.name), (1, c0.name), (2, c0.name)]⟩,
                  by simp [retry_with_fallback, runPrimary, MAX_RETRIES, h0, hr0, h1,
                    hr1, h2, hr2, BACKOFF_DURATIONS],
                  ⟨3, by norm_num, by norm_num [MAX_RETRIES],
                    Or.inl (by simp [List.range_succ])⟩, by simp, by simp⟩
              | cons c1 rest2 =>
                cases h3 : f 3 c1 with
                | ok v =>
                  refine ⟨⟨.ok v,
                      [⟨c0.name, e0.status_code⟩, ⟨c0.name, e1.status_code⟩,
                        ⟨c0.name, e2.status_code⟩],
                      [(0, c0.name), (1, c0.name), (2, c0.name), (0, c1.name)]⟩,
                    by simp [retry_with_fallback, runPrimary, MAX_RETRIES, h0, hr0, h1,
                      hr1, h2, hr2, h3, BACKOFF_DURATIONS],
                    ⟨3, by norm_num, by norm_num [MAX_RETRIES],
                      Or.inr ⟨c1, rest2, rfl, by norm_num [MAX_RETRIES],
                        by simp [List.range_succ, MAX_RETRIES]⟩⟩, by simp, by simp⟩
                | error e3 =>
                  refine ⟨⟨.error e3,
                      [⟨c0.name, e0.status_code⟩, ⟨c0.name, e1.status_code⟩,
                        ⟨c0.name, e2.status_code⟩, ⟨c1.name, e3.status_code⟩],
                      [(0, c0.name), (1, c0.name), (2, c0.name), (0, c1.name)]⟩,
                    by simp [retry_with_fallback, runPrimary, MAX_RETRIES, h0, hr0, h1,
                      hr1, h2, hr2, h3, BACKOFF_DURATIONS],
                    ⟨3, by norm_num, by norm_num [MAX_RETRIES],
                      Or.inr ⟨c1, rest2, rfl, by norm_num [MAX_RETRIES],
                        by simp [List.range_succ, MAX_RETRIES]⟩⟩, by simp, by simp⟩

/-- Claim C7: for every non-empty candidate list and every per-attempt
dispatch function, `retry_with_fallback` dispatches the primary candidate at
most `MAX_RETRIES + 1 = 3` times with waits of 0s, 1s, 2s before attempts
1, 2, 3; a fallback dispatch happens only to the second candidate, exactly
once, with no backoff, and only after the primary made all three attempts;
no third-or-later candidate is ever dispatched; the attempt list size equals
the number of failed dispatches; and a dispatch failing with a status code
outside 500/502/503/504 returns immediately — that dispatch contributes
exactly one attempt record and no fallback dispatch follows. -/
theorem retry_with_fallback_spec {T : Type}
    (f : Nat → CandidateInfo → Except RError T)
    (c0 : CandidateInfo) (rest : List CandidateInfo) :
    ∃ out, retry_with_fallback f (c0 :: rest) = some out ∧
      (∃ k, 1 ≤ k ∧ k ≤ MAX_RETRIES + 1 ∧
        (out.calls = (List.range k).map (fun i => (i, c0.name)) ∨
         ∃ c1 rest2, rest = c1 :: rest2 ∧ k = MAX_RETRIES + 1 ∧
           out.calls = (List.range (MAX_RETRIES + 1)).map (fun i => (i, c0.name))
             ++ [(0, c1.name)])) ∧
      (∀ v, out.result = .ok v → out.attempts.length + 1 = out.calls.length) ∧
      (∀ e, out.result = .error e → out.attempts.length = out.calls.length) ∧
      (∀ n e, n ≤ MAX_RETRIES →
        (∀ j, j < n → ∃ ej, f j c0 = .error ej ∧ is_retryable ej.status_code = true) →
        f n c0 = .error e → is_retryable e.status_code = false →
        out.result = .error e ∧
        out.calls = (List.range (n + 1)).map (fun i => (i, c0.name)) ∧
        out.attempts.length = n + 1) := by
  obtain ⟨out, heval, hA, hB1, hB2⟩ := retry_shape f c0 rest
  refine ⟨out, heval, hA, hB1, hB2, ?_⟩
  intro n e hn hprev herr hnr
  obtain ⟨attempts, heq2, hlen⟩ := retry_nonretryable f c0 rest n e hn hprev herr hnr
  rw [heval] at heq2
  obtain rfl := Option.some.inj heq2
  exact ⟨rfl, rfl, hlen⟩

/-- Witness for `retry_with_fallback_spec`: a dispatch function that always
answers 503 on a two-candidate list makes three primary attempts and one
fallback attempt, and the theorem instantiates on it; the non-retryable
clause is exercised through `retry_nonretryable` facts at a 400 error. -/
theorem retry_with_fallback_spec_witness :
    (∃ out, retry_with_fallback (T := Unit) (fun _ _ => .error ⟨503⟩)
        [⟨"alpha"⟩, ⟨"beta"⟩] = some out ∧
      out.result = .error ⟨503⟩ ∧
      out.calls = [(0, "alpha"), (1, "alpha"), (2, "alpha"), (0, "beta")] ∧
      out.attempts.length = out.calls.length) ∧
    (∃ out, retry_with_fallback (T := Unit) (fun _ _ => .error ⟨400⟩)
        [⟨"alpha"⟩, ⟨"beta"⟩] = some out ∧
      out.result = .error ⟨400⟩ ∧ out.calls = [(0, "alpha")] ∧
      out.attempts.length = 1) := by
  constructor
  · obtain ⟨out, heval, -, -, hB2, -⟩ :=
      retry_with_fallback_spec (T := Unit) (fun _ _ => .error ⟨503⟩) ⟨"alpha"⟩ [⟨"beta"⟩]
    have hout : out = ⟨.error ⟨503⟩,
        [⟨"alpha", 503⟩, ⟨"alpha", 503⟩, ⟨"alpha", 503⟩, ⟨"beta", 503⟩],
        [(0, "alpha"), (1, "alpha"), (2, "alpha"), (0, "beta")]⟩ := by
      have : retry_with_fallback (T := Unit) (fun _ _ => .error ⟨503⟩)
          [⟨"alpha"⟩, ⟨"beta"⟩] = some ⟨.error ⟨503⟩,
          [⟨"alpha", 503⟩, ⟨"alpha", 503⟩, ⟨"alpha", 503⟩, ⟨"beta", 503⟩],
          [(0, "alpha"), (1, "alpha"), (2, "alpha"), (0, "beta")]⟩ := by
        simp [retry_with_fallback, runPrimary, MAX_RETRIES, is_retryable,
          BACKOFF_DURATIONS]
      exact Option.some.inj (heval.symm.trans this)
    exact ⟨out, heval, by rw [hout], by rw [hout], by rw [hout]; rfl⟩
  · obtain ⟨out, heval, -, -, -, hC⟩ :=
      retry_with_fallback_spec (T := Unit) (fun _ _ => .error ⟨400⟩) ⟨"alpha"⟩ [⟨"beta"⟩]
    obtain ⟨hres, hcalls, hlen⟩ := hC 0 ⟨400⟩ (by norm_num [MAX_RETRIES])
      (by omega) rfl (by simp [is_retryable])
    exact ⟨out, heval, hres, by simpa [List.range_succ] using hcalls, hlen⟩

/-! ## SSE observer (`src/proxy/stream.rs`)

Bytes are modelled as `Nat` (newline is 10, carriage return 13).  The two
external collaborators of the observer — `std::str::from_utf8` and
`serde_json::from_str` — are not code of this repository; the definitions
are parameterized over them (`utf8Decode`, `parseJson`) and every theorem
quantifies over both, so the results hold for the real decoder and parser in
particular. -/

/-- Maximum buffer size in bytes, from `BUFFER_CAP` in `stream.rs`. -/
def BUFFER_CAP : Nat := 64 * 1024

/-- Minimal JSON value tree, modelling `serde_json::Value` as far as the
observer inspects it. -/
inductive Json where
  | null
  | bool (b : Bool)
  | num (n : Int)
  | str (s : String)
  | arr (items : List Json)
  | obj (fields : List (String × Json))
deriving Repr

/-- Object field lookup, modelling `Value::get` with a string key. -/
def Json.get (v : Json) (key : String) : Option Json :=
  match v with
  | .obj fields => (fields.find? (fun kv => kv.1 == key)).map (·.2)
  | _ => none

/-- Array index lookup, modelling `Value::get` with a `usize` index. -/
def Json.getIdx (v : Json) (i : Nat) : Option Json :=
  match v with
  | .arr items => items.get? i
  | _ => none

/-- Modelling `Value::as_str`. -/
def Json.as_str : Json → Option String
  | .str s => some s
  | _ => none

/-- Modelling `Value::as_u64` (the observer stores the result in `u32`;
counts stay well below either bound in all verified statements). -/
def Json.as_u64 : Json → Option Nat
  | .num n => if 0 ≤ n then some n.toNat else none
  | _ => none

/-- Modelling `Value::is_null`. -/
def Json.is_null : Json → Bool
  | .null => true
  | _ => false

/-- Token usage extracted from the final SSE chunk, from `StreamUsage` in
`stream.rs`. -/
structure StreamUsage where
  prompt_tokens : Nat
  completion_tokens : Nat
deriving DecidableEq, Repr

/-- Result of observing an SSE stream to completion, from `StreamResult` in
`stream.rs`. -/
structure StreamResult where
  usage : Option StreamUsage
  finish_reason : Option String
  done_received : Bool
deriving DecidableEq, Repr

/-- An empty result for streams that ended without `[DONE]`, from
`StreamResult::empty`. -/
def StreamResult.empty : StreamResult :=
  { usage := none, finish_reason := none, done_received := false }

/-- Internal observer state, from `SseObserver` in `stream.rs` (the
`result_handle` used for the Drop-time write is not part of the extraction
logic and is omitted). -/
structure SseObserver where
  buffer : List Nat
  usage : Option StreamUsage
  finish_reason : Option String
  done_received : Bool
deriving DecidableEq, Repr

/-- A fresh observer, from `SseObserver::new`. -/
def SseObserver.new : SseObserver :=
  { buffer := [], usage := none, finish_reason := none, done_received := false }

/-- Equality of strings by their character lists, modelling `str` equality
from the Rust standard library. -/
def strEq (s t : String) : Bool := s.data == t.data

/-- Modelling `str::is_empty`. -/
def strIsEmpty (s : String) : Bool := s.data == []

/-- Modelling `str::starts_with` for string patterns. -/
def strStartsWith (s p : String) : Bool := s.data.take p.data.length == p.data

/-- Dropping a prefix of `n` characters; `strDrop s p.length` models
`str::strip_prefix p` on a string known to start with `p`. -/
def strDrop (s : String) (n : Nat) : String := ⟨s.data.drop n⟩

/-- Whitespace test used by `str::trim`, modelled for the ASCII whitespace
characters (space, tab, line feed, carriage return) that can occur in SSE
payload framing. -/
def rustIsWhitespace (c : Char) : Bool :=
  c.toNat == 32 || c.toNat == 9 || c.toNat == 10 || c.toNat == 13

/-- Modelling `str::trim`: whitespace removed from both ends. -/
def strTrim (s : String) : String :=
  ⟨((s.data.dropWhile rustIsWhitespace).reverse.dropWhile rustIsWhitespace).reverse⟩

section SSE

variable (utf8Decode : List Nat → Option String) (parseJson : String → Option Json)

/-- Process the payload of a `data:` line, from `SseObserver::process_data`:
trim, handle `[DONE]`, otherwise parse as JSON (skipping on failure) and
extract `choices[0].finish_reason` and a non-null `usage` object carrying
both token fields. -/
def process_data (ob : SseObserver) (data : String) : SseObserver :=
  let data := strTrim data
  if strEq data "[DONE]" then { ob with done_received := true }
  else
    match parseJson data with
    | none => ob
    | some parsed =>
      let ob₁ :=
        match ((parsed.get "choices").bind (fun c => c.getIdx 0)).bind
            (fun choice => (choice.get "finish_reason").bind Json.as_str) with
        | some reason => { ob with finish_reason := some reason }
        | none => ob
      match Option.filter (fun u => !u.is_null) (parsed.get "usage") with
      | some usage =>
        match (usage.get "prompt_tokens").bind Json.as_u64,
            (usage.get "completion_tokens").bind Json.as_u64 with
        | some prompt, some completion =>
          { ob₁ with usage := some ⟨prompt, completion⟩ }
        | _, _ => ob₁
      | none => ob₁

/-- Process a single complete SSE line, from `SseObserver::process_line`:
skip empty lines, comments and the non-data fields, and dispatch `data:`
payloads (with or without a space after the colon). -/
def process_line (ob : SseObserver) (line : String) : SseObserver :=
  if strIsEmpty line then ob
  else if strStartsWith line ":" then ob
  else if strStartsWith line "event:" || strStartsWith line "id:"
      || strStartsWith line "retry:" then ob
  else if strStartsWith line "data: " then process_data parseJson ob (strDrop line 6)
  else if strStartsWith line "data:" then process_data parseJson ob (strDrop line 5)
  else ob

/-- Decode a line's bytes and process it, from the `from_utf8` dispatch in
`SseObserver::process_chunk` (invalid UTF-8 lines are skipped with a
warning). -/
def processLineBytes (ob : SseObserver) (bytes : List Nat) : SseObserver :=
  match utf8Decode bytes with
  | some line => process_line parseJson ob line
  | none => ob

end SSE

/-- Position of the first newline byte in the buffer, modelling
`buffer.iter().position(|&b| b == b'\n')`. -/
def findNewlinePos : List Nat → Option Nat
  | [] => none
  | b :: rest => if b == 10 then some 0 else (findNewlinePos rest).map (· + 1)

/-- End of the line at newline position `pos`: a preceding carriage return
is trimmed, from the `line_end` computation in `process_chunk`. -/
def line_end_of (buf : List Nat) (pos : Nat) : Nat :=
  if 0 < pos ∧ buf.getD (pos - 1) 0 == 13 then pos - 1 else pos

section SSE2

variable (utf8Decode : List Nat → Option String) (parseJson : String → Option Json)

/-- The line-extraction loop of `SseObserver::process_chunk`.  The Rust
`loop` runs until no complete line remains; every iteration consumes at
least the newline byte, so `buffer.length` fuel always suffices (see
`drainLines`). -/
def drainLoop : Nat → SseObserver → SseObserver
  | 0, ob => ob
  | fuel + 1, ob =>
    match findNewlinePos ob.buffer with
    | none => ob
    | some pos =>
      let lineBytes := ob.buffer.take (line_end_of ob.buffer pos)
      let rest := ob.buffer.drop (pos + 1)
      drainLoop fuel
        { processLineBytes utf8Decode parseJson ob lineBytes with buffer := rest }

/-- Extract every complete line from the buffer. -/
def drainLines (ob : SseObserver) : SseObserver :=
  drainLoop utf8Decode parseJson ob.buffer.length ob

/-- Process a chunk of bytes, from `SseObserver::process_chunk`: append to
the buffer; if the buffer now exceeds `BUFFER_CAP`, drain it entirely and
return; otherwise extract all complete lines, retaining the trailing
incomplete segment. -/
def process_chunk (ob : SseObserver) (bytes : List Nat) : SseObserver :=
  if (ob.buffer ++ bytes).length > BUFFER_CAP then { ob with buffer := [] }
  else drainLines utf8Decode parseJson { ob with buffer := ob.buffer ++ bytes }

/-- Flush any remaining buffer content as a final line, from
`SseObserver::flush_buffer` (handles `data: [DONE]` without a trailing
newline; a trailing carriage return is trimmed). -/
def flush_buffer (ob : SseObserver) : SseObserver :=
  if ob.buffer.isEmpty then ob
  else
    let lineBytes :=
      if ob.buffer.getLast? == some 13 then ob.buffer.dropLast else ob.buffer
    { processLineBytes utf8Decode parseJson ob lineBytes with buffer := [] }

/-- Consume the observer and produce the final result, from
`SseObserver::into_result`: flush the residual buffer, then return the empty
result unless `[DONE]` was received. -/
def into_result (ob : SseObserver) : StreamResult :=
  let ob := flush_buffer utf8Decode parseJson ob
  if !ob.done_received then StreamResult.empty
  else { usage := ob.usage, finish_reason := ob.finish_reason, done_received := true }

end SSE2

theorem process_data_buffer (parseJson : String → Option Json) (ob : SseObserver)
    (data : String) : (process_data parseJson ob data).buffer = ob.buffer := by
  simp only [process_data]
  repeat' split
  all_goals rfl

theorem process_line_buffer (parseJson : String → Option Json) (ob : SseObserver)
    (line : String) : (process_line parseJson ob line).buffer = ob.buffer := by
  simp only [process_line]
  repeat' split
  all_goals first | rfl | apply process_data_buffer

theorem processLineBytes_buffer (utf8Decode : List Nat → Option String)
    (parseJson : String → Option Json) (ob : SseObserver) (bytes : List Nat) :
    (processLineBytes utf8Decode parseJson ob bytes).buffer = ob.buffer := by
  simp only [processLineBytes]
  split
  · apply process_line_buffer
  · rfl

theorem process_data_set_buffer (parseJson : String → Option Json)
    (ob : SseObserver) (c : List Nat) (data : String) :
    process_data parseJson { ob with buffer := c } data
      = { process_data parseJson ob data with buffer := c } := by
  simp only [process_data]
  repeat' split
  all_goals rfl

theorem process_line_set_buffer (parseJson : String → Option Json)
    (ob : SseObserver) (c : List Nat) (line : String) :
    process_line parseJson { ob with buffer := c } line
      = { process_line parseJson ob line with buffer := c } := by
  simp only [process_line]
  repeat' split
  all_goals first | rfl | apply process_data_set_buffer

theorem processLineBytes_set_buffer (utf8Decode : List Nat → Option String)
    (parseJson : String → Option Json) (ob : SseObserver) (c : List Nat)
    (bytes : List Nat) :
    processLineBytes utf8Decode parseJson { ob with buffer := c } bytes
      = { processLineBytes utf8Decode parseJson ob bytes with buffer := c } := by
  simp only [processLineBytes]
  split
  · apply process_line_set_buffer
  · rfl

theorem findNewlinePos_lt_length :
    ∀ {buf : List Nat} {pos : Nat}, findNewlinePos buf = some pos → pos < buf.length := by
  intro buf
  induction buf with
  | nil => intro pos h; simp [findNewlinePos] at h
  | cons b rest ih =>
    intro pos h
    simp only [findNewlinePos] at h
    split at h
    · cases h; simp
    · cases hr : findNewlinePos rest with
      | none => rw [hr] at h; simp at h
      | some q =>
        rw [hr] at h
        simp at h
        have := ih hr
        simp [← h]
        omega

theorem findNewlinePos_append_some {a : List Nat} {pos : Nat} (b : List Nat)
    (h : findNewlinePos a = some pos) : findNewlinePos (a ++ b) = some pos := by
  induction a generalizing pos with
  | nil => simp [findNewlinePos] at h
  | cons x rest ih =>
    simp only [List.cons_append, findNewlinePos, List.append_eq] at h ⊢
    by_cases hx : (x == 10) = true
    · rw [if_pos hx] at h ⊢
      exact h
    · rw [if_neg hx] at h ⊢
      cases hr : findNewlinePos rest with
      | none => rw [hr] at h; simp at h
      | some q =>
        rw [hr] at h
        rw [ih hr]
        exact h

theorem line_end_of_le (buf : List Nat) (pos : Nat) : line_end_of buf pos ≤ pos := by
  unfold line_end_of
  split <;> omega

theorem line_end_of_append {a : List Nat} {pos : Nat} (b : List Nat)
    (h : pos < a.length) : line_end_of (a ++ b) pos = line_end_of a pos := by
  unfold line_end_of
  by_cases hp : 0 < pos
  · rw [List.getD_append _ _ _ _ (by omega)]
  · simp [hp]

section SSEproof

variable (utf8Decode : List Nat → Option String) (parseJson : String → Option Json)

theorem drainLoop_congr : ∀ (f₁ f₂ : Nat) (ob : SseObserver),
    ob.buffer.length ≤ f₁ → ob.buffer.length ≤ f₂ →
    drainLoop utf8Decode parseJson f₁ ob = drainLoop utf8Decode parseJson f₂ ob := by
  intro f₁
  induction f₁ with
  | zero =>
    intro f₂ ob h₁ h₂
    have hb : ob.buffer = [] := List.length_eq_zero.mp (by omega)
    cases f₂ with
    | zero => rfl
    | succ m => simp [drainLoop, hb, findNewlinePos]
  | succ n ih =>
    intro f₂ ob h₁ h₂
    cases f₂ with
    | zero =>
      have hb : ob.buffer = [] := List.length_eq_zero.mp (by omega)
      simp [drainLoop, hb, findNewlinePos]
    | succ m =>
      simp only [drainLoop]
      cases hpos : findNewlinePos ob.buffer with
      | none => rfl
      | some pos =>
        have hlt := findNewlinePos_lt_length hpos
        apply ih
        · simp only [List.length_drop]
          omega
        · simp only [List.length_drop]
          omega

theorem drainLines_none (ob : SseObserver) (h : findNewlinePos ob.buffer = none) :
    drainLines utf8Decode parseJson ob = ob := by
  unfold drainLines
  cases hn : ob.buffer.length with
  | zero => rfl
  | succ m => simp [drainLoop, h]

theorem drainLines_some (ob : SseObserver) {pos : Nat}
    (h : findNewlinePos ob.buffer = some pos) :
    drainLines utf8Decode parseJson ob = drainLines utf8Decode parseJson
      { processLineBytes utf8Decode parseJson ob
          (ob.buffer.take (line_end_of ob.buffer pos)) with
        buffer := ob.buffer.drop (pos + 1) } := by
  have hlt := findNewlinePos_lt_length h
  have hpos : 0 < ob.buffer.length := by omega
  conv_lhs => unfold drainLines
  obtain ⟨m, hm⟩ : ∃ m, ob.buffer.length = m + 1 := ⟨ob.buffer.length - 1, by omega⟩
  rw [hm]
  simp only [drainLoop, h]
  unfold drainLines
  apply drainLoop_congr
  · simp only [List.length_drop]
    omega
  · simp

theorem drainLines_buffer_le :
    ∀ (n : Nat) (ob : SseObserver), ob.buffer.length ≤ n →
    (drainLines utf8Decode parseJson ob).buffer.length ≤ ob.buffer.length := by
  intro n
  induction n with
  | zero =>
    intro ob h
    have hb : ob.buffer = [] := List.length_eq_zero.mp (by omega)
    rw [drainLines_none utf8Decode parseJson ob (by simp [hb, findNewlinePos])]
  | succ n ih =>
    intro ob h
    cases hpos : findNewlinePos ob.buffer with
    | none => rw [drainLines_none utf8Decode parseJson ob hpos]
    | some pos =>
      have hlt := findNewlinePos_lt_length hpos
      rw [drainLines_some utf8Decode parseJson ob hpos]
      have := ih { processLineBytes utf8Decode parseJson ob
          (ob.buffer.take (line_end_of ob.buffer pos)) with
        buffer := ob.buffer.drop (pos + 1) } (by simp only [List.length_drop]; omega)
      simp only [List.length_drop] at this ⊢
      omega

theorem drainLines_append :
    ∀ (n : Nat) (ob : SseObserver) (b : List Nat), ob.buffer.length ≤ n →
    drainLines utf8Decode parseJson { ob with buffer := ob.buffer ++ b }
      = drainLines utf8Decode parseJson
        { drainLines utf8Decode parseJson ob with
          buffer := (drainLines utf8Decode parseJson ob).buffer ++ b } := by
  intro n
  induction n with
  | zero =>
    intro ob b h
    have hb : ob.buffer = [] := List.length_eq_zero.mp (by omega)
    rw [drainLines_none utf8Decode parseJson ob (by simp [hb, findNewlinePos])]
  | succ n ih =>
    intro ob b h
    cases hpos : findNewlinePos ob.buffer with
    | none => rw [drainLines_none utf8Decode parseJson ob hpos]
    | some pos =>
      have hlt := findNewlinePos_lt_length hpos
      have happ : findNewlinePos ({ ob with buffer := ob.buffer ++ b }).buffer
          = some pos := findNewlinePos_append_some b hpos
      rw [drainLines_some utf8Decode parseJson _ happ]
      rw [drainLines_some utf8Decode parseJson ob hpos]
      have hle : line_end_of ob.buffer pos ≤ ob.buffer.length :=
        le_trans (line_end_of_le _ _) (le_of_lt hlt)
      have hbytes : ({ ob with buffer := ob.buffer ++ b }).buffer.take
          (line_end_of ({ ob with buffer := ob.buffer ++ b }).buffer pos)
          = ob.buffer.take (line_end_of ob.buffer pos) := by
        simp only
        rw [line_end_of_append b hlt, List.take_append_of_le_length hle]
      rw [hbytes]
      have hdrop : ({ ob with buffer := ob.buffer ++ b }).buffer.drop (pos + 1)
          = ob.buffer.drop (pos + 1) ++ b := by
        simp only
        rw [List.drop_append_of_le_length (by omega)]
      have hset := processLineBytes_set_buffer utf8Decode parseJson ob
        (ob.buffer ++ b) (ob.buffer.take (line_end_of ob.buffer pos))
      have lhs_eq :
          ({ processLineBytes utf8Decode parseJson { ob with buffer := ob.buffer ++ b }
              (ob.buffer.take (line_end_of ob.buffer pos)) with
            buffer := ({ ob with buffer := ob.buffer ++ b }).buffer.drop (pos + 1) }
            : SseObserver)
          = { processLineBytes utf8Decode parseJson ob
              (ob.buffer.take (line_end_of ob.buffer pos)) with
            buffer := ob.buffer.drop (pos + 1) ++ b } := by
        rw [hset, hdrop]
      rw [lhs_eq]
      have hblen : (({ processLineBytes utf8Decode parseJson ob
          (ob.buffer.take (line_end_of ob.buffer pos)) with
          buffer := ob.buffer.drop (pos + 1) } : SseObserver)).buffer.length ≤ n := by
        simp only [List.length_drop]
        omega
      exact ih _ b hblen

theorem process_chunk_no_cap (ob : SseObserver) (bytes : List Nat)
    (h : (ob.buffer ++ bytes).length ≤ BUFFER_CAP) :
    process_chunk utf8Decode parseJson ob bytes
      = drainLines utf8Decode parseJson { ob with buffer := ob.buffer ++ bytes } := by
  unfold process_chunk
  rw [if_neg (by omega)]

theorem foldl_process_chunk :
    ∀ (cs : List (List Nat)) (ob : SseObserver),
    ob.buffer.length + (cs.map List.length).sum ≤ BUFFER_CAP →
    cs.foldl (process_chunk utf8Decode parseJson)
        (drainLines utf8Decode parseJson ob)
      = drainLines utf8Decode parseJson { ob with buffer := ob.buffer ++ cs.flatten } := by
  intro cs
  induction cs with
  | nil =>
    intro ob h
    simp only [List.foldl_nil, List.flatten_nil, List.append_nil]
  | cons c cs ih =>
    intro ob h
    simp only [List.map_cons, List.sum_cons] at h
    have hdb := drainLines_buffer_le utf8Decode parseJson ob.buffer.length ob le_rfl
    have hstep : process_chunk utf8Decode parseJson
        (drainLines utf8Decode parseJson ob) c
        = drainLines utf8Decode parseJson { ob with buffer := ob.buffer ++ c } := by
      rw [process_chunk_no_cap utf8Decode parseJson _ c
        (by simp only [List.length_append]; omega)]
      exact (drainLines_append utf8Decode parseJson ob.buffer.length ob c le_rfl).symm
    simp only [List.foldl_cons, hstep]
    have := ih { ob with buffer := ob.buffer ++ c }
      (by simp only [List.length_append]; omega)
    rw [this]
    simp only [List.flatten_cons, List.append_assoc]

end SSEproof

/-- The identity ASCII decoder: on ASCII byte sequences it agrees with
`std::str::from_utf8`; other sequences are rejected.  Used to instantiate
the decoder parameter on concrete runs, all of which are pure ASCII. -/
def asciiDecode (bytes : List Nat) : Option String :=
  if bytes.all (· < 128) then some (String.mk (bytes.map Char.ofNat)) else none

/-- A JSON parse function that always fails; concrete runs below contain no
JSON payload lines, so any parse function produces the same run. -/
def noParse : String → Option Json := fun _ => none

/-- 65537 bytes of `x` (one more than `BUFFER_CAP`) with no newline. -/
def bigChunk : List Nat := List.replicate 65537 120

/-- The bytes of `"\ndata: [DONE]\n"`. -/
def doneChunk : List Nat := [10, 100, 97, 116, 97, 58, 32, 91, 68, 79, 78, 69, 93, 10]

theorem process_chunk_big :
    process_chunk asciiDecode noParse SseObserver.new bigChunk = SseObserver.new := by
  unfold process_chunk
  rw [if_pos]
  · rfl
  · simp only [SseObserver.new, List.nil_append, bigChunk, List.length_replicate,
      BUFFER_CAP, gt_iff_lt]
    norm_num

theorem process_chunk_done :
    process_chunk asciiDecode noParse SseObserver.new doneChunk
      = { buffer := [], usage := none, finish_reason := none, done_received := true } := by
  decide

/-- Claim C8, counterexample: the 64 KiB safety valve makes extraction
depend on chunk boundaries.  A 65537-byte newline-free chunk followed by
`"\ndata: [DONE]\n"` yields `done_received = true` when fed as two chunks
(the oversized first chunk is discarded alone), but the empty result when
fed as one chunk (the single oversized buffer is discarded whole, including
the `[DONE]` line). -/
theorem cex_two_chunks :
    into_result asciiDecode noParse
        ([bigChunk, doneChunk].foldl (process_chunk asciiDecode noParse) SseObserver.new)
      = { usage := none, finish_reason := none, done_received := true } := by
  have h : [bigChunk, doneChunk].foldl (process_chunk asciiDecode noParse)
      SseObserver.new
      = { buffer := [], usage := none, finish_reason := none, done_received := true } := by
    simp only [List.foldl_cons, List.foldl_nil, process_chunk_big, process_chunk_done]
  rw [h]
  decide

theorem process_chunk_overflow (u : List Nat → Option String)
    (p : String → Option Json) (ob : SseObserver) (bytes : List Nat)
    (h : (ob.buffer ++ bytes).length > BUFFER_CAP) :
    process_chunk u p ob bytes = { ob with buffer := [] } := by
  unfold process_chunk
  rw [if_pos h]

theorem cex_one_chunk :
    into_result asciiDecode noParse
        (process_chunk asciiDecode noParse SseObserver.new (bigChunk ++ doneChunk))
      = StreamResult.empty := by
  have hlen : (SseObserver.new.buffer ++ (bigChunk ++ doneChunk)).length > BUFFER_CAP := by
    have h : (SseObserver.new.buffer ++ (bigChunk ++ doneChunk)).length
        = SseObserver.new.buffer.length + (bigChunk.length + doneChunk.length) := by
      rw [List.length_append, List.length_append]
    have hb : bigChunk.length = 65537 := List.length_replicate 65537 120
    have hd : doneChunk.length = 14 := rfl
    have hn : SseObserver.new.buffer.length = 0 := rfl
    have hc : BUFFER_CAP = 65536 := rfl
    omega
  rw [process_chunk_overflow asciiDecode noParse SseObserver.new (bigChunk ++ doneChunk) hlen]
  decide

/-- Claim C8, counterexample: the 64 KiB safety valve makes extraction
depend on chunk boundaries.  A 65537-byte newline-free chunk followed by
the bytes of `"\ndata: [DONE]\n"` yields `done_received = true` when fed
as two chunks (the oversized first chunk is discarded alone), but the empty
result when fed as one chunk (the single oversized buffer is discarded
whole, `[DONE]` line included). -/
theorem sse_chunk_invariance_counterexample :
    into_result asciiDecode noParse
        ([bigChunk, doneChunk].foldl (process_chunk asciiDecode noParse) SseObserver.new)
      = { usage := none, finish_reason := none, done_received := true } ∧
    into_result asciiDecode noParse
        (process_chunk asciiDecode noParse SseObserver.new (bigChunk ++ doneChunk))
      = StreamResult.empty ∧
    ({ usage := none, finish_reason := none, done_received := true } : StreamResult)
      ≠ StreamResult.empty :=
  ⟨cex_two_chunks, cex_one_chunk, by decide⟩

/-- Claim C8 (amended): for every byte sequence of length at most
`BUFFER_CAP` (64 KiB) and every way of splitting it into chunks, processing
the chunks in order and finalizing yields the same
(usage, finish_reason, done_received) triple as processing the whole
sequence as one chunk, for every UTF-8 decoder and JSON parse function. -/
theorem sse_chunk_invariance (utf8Decode : List Nat → Option String)
    (parseJson : String → Option Json) (chunks : List (List Nat))
    (hlen : chunks.flatten.length ≤ BUFFER_CAP) :
    into_result utf8Decode parseJson
        (chunks.foldl (process_chunk utf8Decode parseJson) SseObserver.new)
      = into_result utf8Decode parseJson
        (process_chunk utf8Decode parseJson SseObserver.new chunks.flatten) := by
  have hnew : drainLines utf8Decode parseJson SseObserver.new = SseObserver.new :=
    drainLines_none utf8Decode parseJson SseObserver.new rfl
  have h1 := foldl_process_chunk utf8Decode parseJson chunks SseObserver.new
    (by simpa [SseObserver.new, ← List.length_flatten] using hlen)
  rw [hnew] at h1
  rw [h1, process_chunk_no_cap utf8Decode parseJson SseObserver.new chunks.flatten
    (by simpa [SseObserver.new] using hlen)]

/-- Witness for `sse_chunk_invariance`: the length hypothesis is discharged
on a concrete two-chunk split of a 2-byte sequence. -/
theorem sse_chunk_invariance_witness :
    ([[100], [10]] : List (List Nat)).flatten.length ≤ BUFFER_CAP ∧
    into_result asciiDecode noParse
        ([[100], [10]].foldl (process_chunk asciiDecode noParse) SseObserver.new)
      = into_result asciiDecode noParse
        (process_chunk asciiDecode noParse SseObserver.new [[100], [10]].flatten) :=
  ⟨by norm_num [BUFFER_CAP], sse_chunk_invariance asciiDecode noParse [[100], [10]]
    (by norm_num [BUFFER_CAP])⟩

theorem into_result_done_gate (utf8Decode : List Nat → Option String)
    (parseJson : String → Option Json) (ob : SseObserver) :
    ((into_result utf8Decode parseJson ob).done_received = false →
      into_result utf8Decode parseJson ob = StreamResult.empty) ∧
    ((into_result utf8Decode parseJson ob).usage.isSome ∨
        (into_result utf8Decode parseJson ob).finish_reason.isSome →
      (into_result utf8Decode parseJson ob).done_received = true) := by
  unfold into_result
  cases hd : (flush_buffer utf8Decode parseJson ob).done_received <;>
    simp [hd, StreamResult.empty]

/-- Claim C9: for every sequence of chunks observed and every decoder and
parse function, if the stream ends without `data: [DONE]` having been
received (the finalized `done_received` is false) then the final
`StreamResult` is empty regardless of any usage or finish_reason extracted
earlier; and a result with non-empty usage or finish_reason can only come
from a stream in which `[DONE]` was received. -/
theorem sse_done_required (utf8Decode : List Nat → Option String)
    (parseJson : String → Option Json) (chunks : List (List Nat)) :
    ((into_result utf8Decode parseJson
        (chunks.foldl (process_chunk utf8Decode parseJson)
          SseObserver.new)).done_received = false →
      into_result utf8Decode parseJson
        (chunks.foldl (process_chunk utf8Decode parseJson) SseObserver.new)
        = StreamResult.empty) ∧
    ((into_result utf8Decode parseJson
        (chunks.foldl (process_chunk utf8Decode parseJson)
          SseObserver.new)).usage.isSome ∨
      (into_result utf8Decode parseJson
        (chunks.foldl (process_chunk utf8Decode parseJson)
          SseObserver.new)).finish_reason.isSome →
      (into_result utf8Decode parseJson
        (chunks.foldl (process_chunk utf8Decode parseJson)
          SseObserver.new)).done_received = true) :=
  into_result_done_gate utf8Decode parseJson _

/-- Witness for `sse_done_required`: a one-chunk stream containing a single
byte and no `[DONE]` finalizes with `done_received = false`, and the theorem
yields the empty result for it. -/
theorem sse_done_required_witness :
    (into_result asciiDecode noParse
        ([[100]].foldl (process_chunk asciiDecode noParse)
          SseObserver.new)).done_received = false ∧
    into_result asciiDecode noParse
        ([[100]].foldl (process_chunk asciiDecode noParse) SseObserver.new)
      = StreamResult.empty := by
  have hd : (into_result asciiDecode noParse
      ([[100]].foldl (process_chunk asciiDecode noParse)
        SseObserver.new)).done_received = false := by decide
  exact ⟨hd, (sse_done_required asciiDecode noParse [[100]]).1 hd⟩

/-! ## Registry, handler dispatch and health endpoint

The registry is modelled as an association list with unique insertion
(`DashMap<String, ProviderCircuitBreaker>` in `circuit_breaker.rs`).  The
handler-side integration — the per-candidate permit loop of
`chat_completions` and the `/health` aggregation — is absent from the
`handlers.rs` revision in `src/` (its `chat_completions` never consults the
registry and its `health` is a stub), while `tests/circuit_integration.rs`
and `tests/health.rs` exercise it; those parts are modelled from the
specification, as marked. -/

/-- The circuit breaker registry as an association list of provider name to
breaker state. -/
abbrev Registry : Type := List (String × CircuitBreakerInner)

/-- Snapshot of a single provider's circuit breaker, from `CircuitSnapshot`
in `circuit_breaker.rs`. -/
structure CircuitSnapshot where
  name : String
  state : CircuitState
  failure_count : Nat
deriving DecidableEq, Repr

/-- A snapshot of all provider circuit states, from
`CircuitBreakerRegistry::all_states`. -/
def all_states (reg : Registry) : List CircuitSnapshot :=
  reg.map fun entry => ⟨entry.1, entry.2.state, entry.2.failure_count⟩

/-- Type of permit returned by `acquire_permit`, from `PermitType` in
`circuit_breaker.rs`. -/
inductive PermitType where
  | Normal
  | Probe
deriving DecidableEq, Repr

/-- Synchronous outcome of a permit acquisition: a granted permit, the
queue-and-wait suspension on the probe watch channel, or rejection with
`CircuitOpenError`. -/
inductive PermitOutcome where
  | permit (t : PermitType)
  | waitForProbe
  | rejected
deriving DecidableEq, Repr

/-- Replace the state of the first entry named `name`. -/
def update_entry : Registry → String → CircuitBreakerInner → Registry
  | [], _, _ => []
  | e :: rest, name, inner =>
    if e.1 == name then (e.1, inner) :: rest else e :: update_entry rest name inner

/-- The synchronous skeleton of `CircuitBreakerRegistry::acquire_permit` at
instant `now`: unknown providers are allowed through (the breaker is
opt-in); otherwise the per-provider breaker's `check_state` decides, and its
lazy Open-to-Half-Open transition is written back.  The asynchronous
queue-and-wait branch surfaces as `waitForProbe`. -/
def acquire_permit (reg : Registry) (name : String) (now : Nat) :
    PermitOutcome × Registry :=
  match List.find? (fun e => e.1 == name) reg with
  | none => (.permit .Normal, reg)
  | some entry =>
    let res := entry.2.check_state now
    let out : PermitOutcome :=
      match res.2 with
      | .Allowed => .permit .Normal
      | .ProbePermit => .permit .Probe
      | .WaitForProbe => .waitForProbe
      | .Rejected => .rejected
    (out, update_entry reg name res.1)

/-- Decision reached by the handler's candidate loop. -/
inductive DispatchDecision where
  | dispatch (provider : String) (permit : PermitType) (reg : Registry)
  | allOpen (status : Nat) (message : String)
  | waiting (provider : String) (reg : Registry)
deriving Repr

/-- Modelled from the spec: the per-candidate circuit-breaker check of the
`chat_completions` handler (both streaming and non-streaming paths), which
is missing from the `handlers.rs` revision in `src/`.  Specification §4.5
step 5: for each candidate, check the circuit breaker permit; skip
candidates whose breaker is Open; if all candidates' circuits are open,
respond 503 with a message naming the condition. -/
def dispatch_with_breakers : Registry → List String → Nat → DispatchDecision
  | _, [], _ => .allOpen 503 "All providers have open circuits"
  | reg, c :: rest, now =>
    match acquire_permit reg c now with
    | (.permit t, reg₂) => .dispatch c t reg₂
    | (.waitForProbe, reg₂) => .waiting c reg₂
    | (.rejected, _) => dispatch_with_breakers reg rest now

theorem check_state_rejected_id {s : CircuitBreakerInner} {now : Nat}
    (h : (s.check_state now).2 = .Rejected) : (s.check_state now).1 = s := by
  unfold CircuitBreakerInner.check_state at h ⊢
  split at h
  · simp at h
  · split at h
    · split at h
      · exfalso
        simp only [CircuitBreakerInner.try_acquire_probe] at h
        split at h <;> simp_all
      · rename_i hcond
        rw [if_neg hcond]
    · rfl
  · exfalso
    simp only [CircuitBreakerInner.try_acquire_probe] at h
    split at h <;> simp_all

theorem update_entry_find_self {reg : Registry} {name : String}
    {entry : String × CircuitBreakerInner}
    (h : List.find? (fun e => e.1 == name) reg = some entry) :
    update_entry reg name entry.2 = reg := by
  induction reg with
  | nil => simp at h
  | cons e rest ih =>
    rw [List.find?_cons] at h
    unfold update_entry
    split
    · rename_i he
      rw [he] at h
      simp only [Option.some.injEq] at h
      rw [← h]
    · rename_i he
      rw [Bool.not_eq_true] at he
      rw [he] at h
      rw [ih h]

theorem acquire_permit_rejected_id {reg : Registry} {name : String} {now : Nat}
    {reg₂ : Registry} (h : acquire_permit reg name now = (.rejected, reg₂)) :
    reg₂ = reg := by
  unfold acquire_permit at h
  cases hf : List.find? (fun e => e.1 == name) reg with
  | none => rw [hf] at h; simp at h
  | some entry =>
    rw [hf] at h
    simp only at h
    split at h
    · simp at h
    · simp at h
    · simp at h
    · rename_i hrej
      have hid := check_state_rejected_id hrej
      rw [hid] at h
      obtain ⟨-, h2⟩ := Prod.mk.injEq .. ▸ h
      rw [← h2]
      exact update_entry_find_self hf

/-- Claim C1 (modelled from the spec): in the handler's candidate loop,
a candidate whose permit check rejects (circuit Open, timer unexpired) is
skipped and the loop continues unchanged on the remaining candidates; a
dispatch decision always names a member of the candidate list to which a
permit (Normal or Probe) was actually granted — never a provider whose
check rejected; and when every candidate's circuit rejects, the decision is
a 503 response whose message names the open-circuits condition. -/
theorem dispatch_with_breakers_spec (now : Nat) :
    (∀ (reg : Registry) (c : String) (rest : List String),
      (acquire_permit reg c now).1 = .rejected →
      dispatch_with_breakers reg (c :: rest) now
        = dispatch_with_breakers reg rest now) ∧
    (∀ (reg : Registry) (candidates : List String) (c : String)
        (t : PermitType) (reg₂ : Registry),
      dispatch_with_breakers reg candidates now = .dispatch c t reg₂ →
      c ∈ candidates ∧ ∃ regb : Registry, acquire_permit regb c now = (.permit t, reg₂)) ∧
    (∀ (reg : Registry) (candidates : List String),
      (∀ c ∈ candidates, (acquire_permit reg c now).1 = .rejected) →
      dispatch_with_breakers reg candidates now
        = .allOpen 503 "All providers have open circuits") := by
  refine ⟨?_, ?_, ?_⟩
  · intro reg c rest hrej
    conv_lhs => unfold dispatch_with_breakers
    cases hacq : acquire_permit reg c now with
    | mk out reg₂ =>
      cases out with
      | permit t =>
        rw [hacq] at hrej
        exact absurd hrej (by simp)
      | waitForProbe =>
        rw [hacq] at hrej
        exact absurd hrej (by simp)
      | rejected => rfl
  · intro reg candidates
    induction candidates generalizing reg with
    | nil =>
      intro c t reg₂ h
      simp [dispatch_with_breakers] at h
    | cons c₀ rest ih =>
      intro c t reg₂ h
      conv_lhs at h => unfold dispatch_with_breakers
      cases hacq : acquire_permit reg c₀ now with
      | mk out regn =>
        rw [hacq] at h
        cases out with
        | permit t₀ =>
          replace h : DispatchDecision.dispatch c₀ t₀ regn
              = DispatchDecision.dispatch c t reg₂ := h
          simp only [DispatchDecision.dispatch.injEq] at h
          obtain ⟨h1, h2, h3⟩ := h
          subst h1; subst h2; subst h3
          exact ⟨List.mem_cons_self _ _, reg, hacq⟩
        | waitForProbe =>
          replace h : DispatchDecision.waiting c₀ regn
              = DispatchDecision.dispatch c t reg₂ := h
          simp at h
        | rejected =>
          replace h : dispatch_with_breakers reg rest now
              = DispatchDecision.dispatch c t reg₂ := h
          obtain ⟨hc, regb, hregb⟩ := ih reg c t reg₂ h
          exact ⟨List.mem_cons_of_mem _ hc, regb, hregb⟩
  · intro reg candidates
    induction candidates generalizing reg with
    | nil => intro _; rfl
    | cons c₀ rest ih =>
      intro hall
      have h₀ := hall c₀ (List.mem_cons_self _ _)
      conv_lhs => unfold dispatch_with_breakers
      cases hacq : acquire_permit reg c₀ now with
      | mk out regn =>
        rw [hacq] at h₀
        replace h₀ : out = PermitOutcome.rejected := h₀
        subst h₀
        exact ih reg fun c hc => hall c (List.mem_cons_of_mem _ hc)

/-- A registry with `alpha` tripped at time 0 and `beta` fresh. -/
def regMixed : Registry :=
  [("alpha", runOps CircuitBreakerInner.new
      [.fail 0 "5xx" "a", .fail 0 "5xx" "b", .fail 0 "5xx" "c"]),
   ("beta", CircuitBreakerInner.new)]

/-- A registry with both providers tripped at time 0. -/
def regAllOpen : Registry :=
  [("alpha", runOps CircuitBreakerInner.new
      [.fail 0 "5xx" "a", .fail 0 "5xx" "b", .fail 0 "5xx" "c"]),
   ("beta", runOps CircuitBreakerInner.new
      [.fail 0 "5xx" "a", .fail 0 "5xx" "b", .fail 0 "5xx" "c"])]

/-- Witness for `dispatch_with_breakers_spec`: with `alpha` open and `beta`
closed at time 5, the loop skips `alpha`; with both open, every candidate
rejects and the decision is the 503 all-circuits-open response. -/
theorem dispatch_with_breakers_spec_witness :
    dispatch_with_breakers regMixed ["alpha", "beta"] 5
      = dispatch_with_breakers regMixed ["beta"] 5 ∧
    dispatch_with_breakers regAllOpen ["alpha", "beta"] 5
      = .allOpen 503 "All providers have open circuits" := by
  constructor
  · exact (dispatch_with_breakers_spec 5).1 regMixed "alpha" ["beta"] (by decide)
  · refine (dispatch_with_breakers_spec 5).2.2 regAllOpen ["alpha", "beta"] ?_
    intro c hc
    rcases List.mem_cons.mp hc with h | h
    · subst h; decide
    · rcases List.mem_cons.mp h with h | h
      · subst h; decide
      · simp at h

/-- Modelled from the spec: the `GET /health` top-level status, absent from
the `handlers.rs` revision in `src/` (its `health` handler is a stub);
specification §4.6 and `tests/health.rs` fix the behaviour: `ok` when all
circuits are Closed (or zero providers, HTTP 200); `unhealthy` exactly when
there is at least one circuit and all circuits are Open (HTTP 503);
`degraded` otherwise (HTTP 200) — in particular a mix of Open and Half-Open
with no Closed counts as recovering, not dead. -/
def health_status (states : List CircuitState) : String × Nat :=
  if states.all (fun s => decide (s = .Closed)) then ("ok", 200)
  else if states.all (fun s => decide (s = .Open)) then ("unhealthy", 503)
  else ("degraded", 200)

/-- Modelled from the spec: the per-provider body of `GET /health`, keyed by
provider name with the lowercase state string and the failure count, built
from `CircuitBreakerRegistry::all_states` (which is in the source). -/
def health_snapshot (reg : Registry) : List (String × String × Nat) :=
  (all_states reg).map fun s => (s.name, s.state.as_str, s.failure_count)

/-- Claim C2 (modelled from the spec where the handler is missing from
src/): `GET /health` reports every registered breaker under its provider
name with the lowercase state string (`closed`/`open`/`half_open`, via
`CircuitState::as_str`) and its failure count; the top-level status is `ok`
exactly when all circuits are Closed (or there are none), `unhealthy` with
HTTP 503 exactly when there is at least one circuit and all are Open, and
`degraded` with HTTP 200 otherwise — in particular for a mix of Open and
Half-Open with no Closed. -/
theorem health_status_ok_eq {states : List CircuitState}
    (h : ∀ s ∈ states, s = CircuitState.Closed) :
    health_status states = ("ok", 200) := by
  have h1 : states.all (fun s => decide (s = CircuitState.Closed)) = true := by
    simp only [List.all_eq_true, decide_eq_true_eq]
    exact h
  unfold health_status
  rw [if_pos h1]

theorem health_status_unhealthy_eq {states : List CircuitState}
    (hc : ¬ ∀ s ∈ states, s = CircuitState.Closed)
    (ho : ∀ s ∈ states, s = CircuitState.Open) :
    health_status states = ("unhealthy", 503) := by
  have h1 : ¬ states.all (fun s => decide (s = CircuitState.Closed)) = true := by
    simp only [List.all_eq_true, decide_eq_true_eq]
    exact hc
  have h2 : states.all (fun s => decide (s = CircuitState.Open)) = true := by
    simp only [List.all_eq_true, decide_eq_true_eq]
    exact ho
  unfold health_status
  rw [if_neg h1, if_pos h2]

theorem health_status_degraded_eq {states : List CircuitState}
    (hc : ¬ ∀ s ∈ states, s = CircuitState.Closed)
    (ho : ¬ ∀ s ∈ states, s = CircuitState.Open) :
    health_status states = ("degraded", 200) := by
  have h1 : ¬ states.all (fun s => decide (s = CircuitState.Closed)) = true := by
    simp only [List.all_eq_true, decide_eq_true_eq]
    exact hc
  have h2 : ¬ states.all (fun s => decide (s = CircuitState.Open)) = true := by
    simp only [List.all_eq_true, decide_eq_true_eq]
    exact ho
  unfold health_status
  rw [if_neg h1, if_neg h2]

/-- Claim C2 (modelled from the spec where the handler is missing from
src/): `GET /health` reports every registered breaker under its provider
name with the lowercase state string (`closed`/`open`/`half_open`, via
`CircuitState::as_str`) and its failure count; the top-level status is `ok`
exactly when all circuits are Closed (or there are none), `unhealthy` with
HTTP 503 exactly when there is at least one circuit and all are Open, and
`degraded` with HTTP 200 otherwise — in particular for a mix of Open and
Half-Open with no Closed. -/
theorem health_endpoint_spec (reg : Registry) :
    (∀ e ∈ reg, (e.1, (e.2).state.as_str, (e.2).failure_count) ∈ health_snapshot reg) ∧
    CircuitState.Closed.as_str = "closed" ∧
    CircuitState.Open.as_str = "open" ∧
    CircuitState.HalfOpen.as_str = "half_open" ∧
    (∀ states : List CircuitState,
      ((health_status states).1 = "ok" ↔ ∀ s ∈ states, s = .Closed) ∧
      ((health_status states).1 = "unhealthy" ↔
        states ≠ [] ∧ ∀ s ∈ states, s = .Open) ∧
      ((health_status states).1 = "unhealthy" ↔ (health_status states).2 = 503) ∧
      ((∃ s ∈ states, s = .HalfOpen) → (∀ s ∈ states, s ≠ .Closed) →
        health_status states = ("degraded", 200)) ∧
      ((∃ s ∈ states, s ≠ .Closed) → (∃ s ∈ states, s = .Closed) →
        health_status states = ("degraded", 200))) := by
  refine ⟨?_, rfl, rfl, rfl, ?_⟩
  · intro e he
    exact List.mem_map_of_mem _ (List.mem_map_of_mem _ he)
  · intro states
    by_cases hclosed : ∀ s ∈ states, s = CircuitState.Closed
    · rw [health_status_ok_eq hclosed]
      refine ⟨⟨fun _ => hclosed, fun _ => rfl⟩, ?_, ?_, ?_, ?_⟩
      · constructor
        · intro h
          exact absurd h (by simp)
        · rintro ⟨hne, hopen⟩
          cases states with
          | nil => exact absurd rfl hne
          | cons a rest =>
            have h1 := hclosed a (List.mem_cons_self _ _)
            have h2 := hopen a (List.mem_cons_self _ _)
            rw [h1] at h2
            exact absurd h2 (by simp)
      · exact ⟨fun h => absurd h (by simp), fun h => absurd h (by simp)⟩
      · rintro ⟨s, hs, hhalf⟩ hnc
        exact absurd (hclosed s hs) (hnc s hs)
      · rintro ⟨s, hs, hne⟩ -
        exact absurd (hclosed s hs) hne
    · by_cases hopen : ∀ s ∈ states, s = CircuitState.Open
      · have hne : states ≠ [] := by
          intro hnil
          exact hclosed (by simp [hnil])
        rw [health_status_unhealthy_eq hclosed hopen]
        refine ⟨?_, ⟨fun _ => ⟨hne, hopen⟩, fun _ => rfl⟩,
          ⟨fun _ => rfl, fun _ => rfl⟩, ?_, ?_⟩
        · constructor
          · intro h
            exact absurd h (by simp)
          · intro h
            exact absurd h hclosed
        · rintro ⟨s, hs, hhalf⟩ -
          have h2 := hopen s hs
          rw [hhalf] at h2
          exact absurd h2 (by simp)
        · rintro - ⟨s, hs, hc⟩
          have h2 := hopen s hs
          rw [hc] at h2
          exact absurd h2 (by simp)
      · rw [health_status_degraded_eq hclosed hopen]
        refine ⟨?_, ?_, ?_, fun _ _ => rfl, fun _ _ => rfl⟩
        · constructor
          · intro h
            exact absurd h (by simp)
          · intro h
            exact absurd h hclosed
        · constructor
          · intro h
            exact absurd h (by simp)
          · rintro ⟨-, ho⟩
            exact absurd ho hopen
        · exact ⟨fun h => absurd h (by simp), fun h => absurd h (by simp)⟩

/-- Witness for `health_endpoint_spec`: concrete registries exercise the
hypotheses — all-open gives `unhealthy`/503, an Open and Half-Open mix with
no Closed gives `degraded`/200, and a tripped breaker is reported as
`"open"` with failure count 3. -/
theorem health_endpoint_spec_witness :
    health_status ((all_states regAllOpen).map (fun s => s.state))
      = ("unhealthy", 503) ∧
    health_status [CircuitState.Open, CircuitState.HalfOpen] = ("degraded", 200) ∧
    ("alpha", "open", 3) ∈ health_snapshot regAllOpen := by
  refine ⟨?_, ?_, ?_⟩
  · have h := ((health_endpoint_spec regAllOpen).2.2.2.2
      ((all_states regAllOpen).map (fun s => s.state))).2.1
    have hu : (health_status ((all_states regAllOpen).map (fun s => s.state))).1
        = "unhealthy" := h.mpr (by decide)
    have hc := ((health_endpoint_spec regAllOpen).2.2.2.2
      ((all_states regAllOpen).map (fun s => s.state))).2.2.1
    have h503 := hc.mp hu
    have : health_status ((all_states regAllOpen).map (fun s => s.state))
        = ((health_status ((all_states regAllOpen).map (fun s => s.state))).1,
           (health_status ((all_states regAllOpen).map (fun s => s.state))).2) := rfl
    rw [this, hu, h503]
  · exact ((health_endpoint_spec regAllOpen).2.2.2.2
      [CircuitState.Open, CircuitState.HalfOpen]).2.2.2.1
      ⟨.HalfOpen, by decide, rfl⟩ (by decide)
  · have h := (health_endpoint_spec regAllOpen).1
      ("alpha", runOps CircuitBreakerInner.new
        [.fail 0 "5xx" "a", .fail 0 "5xx" "b", .fail 0 "5xx" "c"]) (by decide)
    have he : (runOps CircuitBreakerInner.new
        [.fail 0 "5xx" "a", .fail 0 "5xx" "b", .fail 0 "5xx" "c"]).state.as_str
        = "open" := by decide
    have hf : (runOps CircuitBreakerInner.new
        [.fail 0 "5xx" "a", .fail 0 "5xx" "b", .fail 0 "5xx" "c"]).failure_count
        = 3 := by decide
    rw [he, hf] at h
    exact h

end Arbstr
